import Mathlib

/-!
# MultiServerMC: the launch pipeline and the launch registry

A shallow embedding of `LaunchTask` (`api/logic/launch/LaunchTask.cpp`), the
sequential step executor that drives one instance launch, and of the parts of
the application object (`application/MultiServerMC.cpp`) that talk to a
running primary process, dispatch its messages and keep the registry of
launched instances, together with their properties.

Everything a `LaunchTask` does to its collaborators (the instance, its steps,
the signals of the `Task` base class) is recorded, in order, in a trace of
`Event`s carried by the task value.  An access `m_steps[i]` with `i` outside
the list is not defined behaviour of the container (a failed assertion in a
debug build), so every operation returns `Except Fault _`: the access stops
the call and hands back the index together with the task as it was at that
moment.

Texts are `String`s; the functions of `QString` that the code calls
(`replace`, `section`, `toInt`, `+`) are defined on their characters as the
library documents them.  The application object likewise carries a trace of
what it does to its windows and controllers, and of its calls of `exit`.

Two smaller parts follow the same pattern: the images of an icon
(`api/gui/icons/MSMCIcon.cpp`) and the search in the log view
(`LogFormatProxyModel::find` of `application/pages/instance/LogPage.cpp`).
-/

namespace Launch

/-- The values of `LaunchTask::State`. -/
inductive State where
  | NotStarted
  | Running
  | Waiting
  | Failed
  | Aborted
  | Finished
  deriving DecidableEq, Repr

/-- What the task needs to know of one `LaunchStep`: the answers the step gives
to `wasSuccessful()`, `failReason()`, `canAbort()` and `abort()`. -/
structure LaunchStep where
  wasSuccessful : Bool
  failReason : String
  canAbort : Bool
  abort : Bool
  deriving DecidableEq, Repr

/-- The observable actions of a `LaunchTask`, in the order it performs them. -/
inductive Event where
  /-- The call `m_instance->setRunning(b)`. -/
  | setRunning (b : Bool)
  /-- The call `m_instance->setCrashed(b)`. -/
  | setCrashed (b : Bool)
  /-- The report of `Task::emitSucceeded()`. -/
  | succeeded
  /-- The report of `Task::emitFailed(reason)`. -/
  | failed (reason : String)
  /-- The signal `readyForLaunch()`. -/
  | readyForLaunch
  /-- The signal `requestProgress(m_steps[i])`. -/
  | requestProgress (i : Nat)
  /-- The signal `m_steps[i]->stdinWrittenTo(data)`. -/
  | stdinWrittenTo (i : Nat) (data : String)
  /-- The call `m_steps[i]->start()`. -/
  | start (i : Nat)
  /-- The call `m_steps[i]->finalize()`. -/
  | finalize (i : Nat)
  /-- The call `m_steps[i]->proceed()`. -/
  | proceed (i : Nat)
  /-- The call `m_steps[i]->abort()`. -/
  | abort (i : Nat)
  deriving DecidableEq, Repr

/-- The members of a `LaunchTask` that the step pipeline reads and writes,
and the trace of what it has done so far. -/
structure LaunchTask where
  state : State
  currentStep : Int
  m_steps : List LaunchStep
  trace : List Event
  deriving DecidableEq, Repr

/-- An access `m_steps[index]` outside the list, and the task at that moment. -/
structure Fault where
  index : Int
  task : LaunchTask
  deriving DecidableEq, Repr

namespace LaunchTask

/-- Append one event to the trace. -/
def log (e : Event) (t : LaunchTask) : LaunchTask :=
  { t with trace := t.trace ++ [e] }

/-- The access `m_steps[i]`: the position and the step, or a fault when `i` is
negative or not below `m_steps.size()`. -/
def stepAt (t : LaunchTask) (i : Int) : Except Fault (Nat × LaunchStep) :=
  if 0 ≤ i then
    match t.m_steps[i.toNat]? with
    | some s => .ok (i.toNat, s)
    | none => .error ⟨i, t⟩
  else .error ⟨i, t⟩

/-- Modelled from the spec: the members of a freshly constructed task, which
are initialised in `launch/LaunchTask.h` (not among the sources): the state
is `NotStarted`, `currentStep` is -1 before the first step starts, and there
are no steps. -/
def constructed : LaunchTask :=
  { state := .NotStarted, currentStep := -1, m_steps := [], trace := [] }

/-- `LaunchTask::init`. -/
def init (t : LaunchTask) : LaunchTask :=
  log (.setRunning true) t

/-- `LaunchTask::create`. -/
def create : LaunchTask :=
  init constructed

/-- `LaunchTask::appendStep`. -/
def appendStep (step : LaunchStep) (t : LaunchTask) : LaunchTask :=
  { t with m_steps := t.m_steps ++ [step] }

/-- `LaunchTask::prependStep`. -/
def prependStep (step : LaunchStep) (t : LaunchTask) : LaunchTask :=
  { t with m_steps := step :: t.m_steps }

/-- A task as a caller assembles it: created, then the steps appended one by
one in order. -/
def assembled (steps : List LaunchStep) : LaunchTask :=
  steps.foldl (fun t s => appendStep s t) create

/-- `LaunchTask::writeToStdin`. -/
def writeToStdin (data : String) (t : LaunchTask) : Except Fault LaunchTask := do
  let (i, _) ← stepAt t t.currentStep
  pure (log (.stdinWrittenTo i data) t)

/-- Modelled from the spec: `Task::emitSucceeded` of the base class
(`tasks/Task.h`, not among the sources) reports overall success.
`LaunchTask::emitSucceeded` first clears the running flag of the instance. -/
def emitSucceeded (t : LaunchTask) : LaunchTask :=
  log .succeeded (log (.setRunning false) t)

/-- Modelled from the spec: `Task::emitFailed` of the base class
(`tasks/Task.h`, not among the sources) reports overall failure with a reason.
`LaunchTask::emitFailed` first clears the running flag of the instance and
marks it as crashed. -/
def emitFailed (reason : String) (t : LaunchTask) : LaunchTask :=
  log (.failed reason) (log (.setCrashed true) (log (.setRunning false) t))

/-- The loop of `LaunchTask::finalizeSteps`,
`for(auto step = currentStep; step >= 0; step--) m_steps[step]->finalize();`
counted by the number `step + 1` of iterations still to run. -/
def finalizeLoop : Nat → LaunchTask → Except Fault LaunchTask
  | 0, t => pure t
  | step + 1, t => do
    let (i, _) ← stepAt t (step : Int)
    finalizeLoop step (log (.finalize i) t)

/-- `LaunchTask::finalizeSteps`. -/
def finalizeSteps (successful : Bool) (error : String) (t : LaunchTask) :
    Except Fault LaunchTask := do
  let t ← finalizeLoop (t.currentStep + 1).toNat t
  if successful then
    pure (emitSucceeded t)
  else
    pure (emitFailed error t)

/-- `LaunchTask::onStepFinished`. -/
def onStepFinished (t : LaunchTask) : Except Fault LaunchTask :=
  if t.currentStep = -1 then do
    let t := { t with currentStep := t.currentStep + 1 }
    let (i, _) ← stepAt t t.currentStep
    pure (log (.start i) t)
  else do
    let (_, step) ← stepAt t t.currentStep
    if step.wasSuccessful then
      if t.currentStep = (t.m_steps.length : Int) - 1 then
        finalizeSteps true "" t
      else do
        let t := { t with currentStep := t.currentStep + 1 }
        let (i, _) ← stepAt t t.currentStep
        pure (log (.start i) t)
    else
      finalizeSteps false step.failReason t

/-- `LaunchTask::executeTask`.  The branch for an empty step list has no
`return`: control continues with the two statements after it. -/
def executeTask (t : LaunchTask) : Except Fault LaunchTask :=
  let t := log (.setCrashed false) t
  let t := if t.m_steps.length = 0 then emitSucceeded { t with state := .Finished } else t
  let t := { t with state := .Running }
  onStepFinished t

/-- `LaunchTask::onReadyForLaunch`. -/
def onReadyForLaunch (t : LaunchTask) : LaunchTask :=
  log .readyForLaunch { t with state := .Waiting }

/-- `LaunchTask::onProgressReportingRequested`. -/
def onProgressReportingRequested (t : LaunchTask) : Except Fault LaunchTask := do
  let t := { t with state := .Waiting }
  let (i, _) ← stepAt t t.currentStep
  pure (log (.requestProgress i) t)

/-- `LaunchTask::proceed`. -/
def proceed (t : LaunchTask) : Except Fault LaunchTask :=
  if t.state ≠ .Waiting then
    pure t
  else do
    let (i, _) ← stepAt t t.currentStep
    pure (log (.proceed i) t)

/-- `LaunchTask::canAbort`. -/
def canAbort (t : LaunchTask) : Except Fault Bool :=
  match t.state with
  | .Aborted | .Failed | .Finished => pure false
  | .NotStarted => pure true
  | .Running | .Waiting => do
    let (_, step) ← stepAt t t.currentStep
    pure step.canAbort

/-- `LaunchTask::abort`: the returned flag and the task afterwards. -/
def abort (t : LaunchTask) : Except Fault (Bool × LaunchTask) :=
  match t.state with
  | .Aborted | .Failed | .Finished => pure (true, t)
  | .NotStarted => pure (true, emitFailed "Aborted" { t with state := .Aborted })
  | .Running | .Waiting => do
    let (i, step) ← stepAt t t.currentStep
    if !step.canAbort then
      pure (false, t)
    else
      let t := log (.abort i) t
      if step.abort then
        pure (true, { t with state := .Aborted })
      else
        pure (false, t)

/-- Whether an event is a call of `start()` on a step. -/
def isStart : Event → Bool
  | .start _ => true
  | _ => false

/-- Whether an event is a call of `finalize()` on a step. -/
def isFinalize : Event → Bool
  | .finalize _ => true
  | _ => false

/-- Whether an event is the report of the outcome: `succeeded` or `failed`. -/
def isOutcome : Event → Bool
  | .succeeded => true
  | .failed _ => true
  | _ => false

/-- The number of steps started so far. -/
def countStarts (tr : List Event) : Nat :=
  (tr.filter isStart).length

/-- The steps of a run reporting their completion: as long as a started step
has not yet reported, it reports (the task handles it in `onStepFinished`).
Every started step reports once, and only after it was started.  The result
is the number of reports handled and the task afterwards. -/
def deliver : Nat → Nat → LaunchTask → Except Fault (Nat × LaunchTask)
  | 0, reported, t => pure (reported, t)
  | fuel + 1, reported, t =>
    if reported < countStarts t.trace then do
      let t ← onStepFinished t
      deliver fuel (reported + 1) t
    else
      pure (reported, t)

/-- A run of the pipeline over `steps`: the task is assembled and executed,
then the started steps report their completion. -/
def run (steps : List LaunchStep) (fuel : Nat) : Except Fault (Nat × LaunchTask) := do
  let t ← executeTask (assembled steps)
  deliver fuel 0 t

/-- The events `start 0, ..., start (n-1)`. -/
def startEvents (n : Nat) : List Event :=
  (List.range n).map Event.start

/-- The events `finalize (n-1), ..., finalize 0`. -/
def finalizeEvents (n : Nat) : List Event :=
  (List.range n).reverse.map Event.finalize

/-- The events of `LaunchTask::emitSucceeded` or `LaunchTask::emitFailed`. -/
def outcomeEvents (successful : Bool) (reason : String) : List Event :=
  if successful then [.setRunning false, .succeeded]
  else [.setRunning false, .setCrashed true, .failed reason]

/-- The task in the middle of a run, step `j` being the last one started. -/
def midRun (steps : List LaunchStep) (j : Nat) : LaunchTask :=
  { state := .Running, currentStep := (j : Int), m_steps := steps,
    trace := [.setRunning true, .setCrashed false] ++ startEvents (j + 1) }

/-- The task at the end of a run whose last started step is `m`. -/
def endRun (steps : List LaunchStep) (m : Nat) (successful : Bool) (reason : String) :
    LaunchTask :=
  { state := .Running, currentStep := (m : Int), m_steps := steps,
    trace := [.setRunning true, .setCrashed false] ++ startEvents (m + 1)
      ++ finalizeEvents (m + 1) ++ outcomeEvents successful reason }

/-- The operations on a task that its owner and its steps invoke. -/
inductive Op where
  | executeTask
  | onStepFinished
  | onReadyForLaunch
  | onProgressReportingRequested
  | proceed
  | abort
  deriving DecidableEq, Repr

/-- One operation applied to the task. -/
def applyOp : Op → LaunchTask → Except Fault LaunchTask
  | .executeTask, t => executeTask t
  | .onStepFinished, t => onStepFinished t
  | .onReadyForLaunch, t => pure (onReadyForLaunch t)
  | .onProgressReportingRequested, t => onProgressReportingRequested t
  | .proceed, t => proceed t
  | .abort, t => do
    let (_, t) ← abort t
    pure t

/-- The slots `onStepFinished`, `onReadyForLaunch` and
`onProgressReportingRequested` are invoked by steps that are at work, so they
occur only once some step has been started; the other operations may be
invoked at any time. -/
def permitted : Op → LaunchTask → Bool
  | .onStepFinished, t => decide (0 < countStarts t.trace)
  | .onReadyForLaunch, t => decide (0 < countStarts t.trace)
  | .onProgressReportingRequested, t => decide (0 < countStarts t.trace)
  | _, _ => true

/-- The task `t2` is reached from the task `t1` by permitted operations, none
of which accesses a step outside the list. -/
inductive Reach : LaunchTask → LaunchTask → Prop where
  | refl (t : LaunchTask) : Reach t t
  | step {t1 t2 t3 : LaunchTask} (op : Op) : Reach t1 t2 → permitted op t2 = true →
      applyOp op t2 = .ok t3 → Reach t1 t3

/-- The invariant of a task over the step list `steps`. -/
def Inv (steps : List LaunchStep) (t : LaunchTask) : Prop :=
  t.m_steps = steps ∧ -1 ≤ t.currentStep ∧ t.currentStep < (steps.length : Int) ∧
    (t.currentStep = -1 ↔ countStarts t.trace = 0) ∧
    (t.state = .NotStarted → t.currentStep = -1) ∧
    (t.state = .Running ∨ t.state = .Waiting → 0 ≤ t.currentStep)

end LaunchTask

/-! ## Texts, log intake, peer messages and the launch registry: definitions -/

namespace QString

/-- Whether the characters `p` stand at the start of `l`. -/
def startsWith : List Char → List Char → Bool
  | [], _ => true
  | _ :: _, [] => false
  | p :: ps, c :: cs => p == c && startsWith ps cs

/-- The scan of `QString::replace(before, after)` for a non-empty `before`,
from left to right: where `before` stands at the current position, `after` is
put in its place and the scan goes on behind the occurrence (`skip` counts
the characters of the occurrence still to pass over); any other character is
kept. -/
def replaceScan (before after : List Char) : Nat → List Char → List Char
  | _, [] => []
  | skip + 1, _ :: cs => replaceScan before after skip cs
  | 0, c :: cs =>
    if startsWith before (c :: cs) then
      after ++ replaceScan before after (before.length - 1) cs
    else
      c :: replaceScan before after 0 cs

/-- What `QString::replace` does with an empty `before`: `after` is put in
front of every character and at the end. -/
def insertEverywhere (after : List Char) : List Char → List Char
  | [] => after
  | c :: cs => after ++ c :: insertEverywhere after cs

/-- The library function `QString::replace(before, after)` (case sensitive),
as its documentation describes it: every occurrence of `before` is replaced
by `after`. -/
def replace (before after s : String) : String :=
  if before.data = [] then
    ⟨insertEverywhere after.data s.data⟩
  else
    ⟨replaceScan before.data after.data 0 s.data⟩

end QString

namespace LaunchTask

/-- `LaunchTask::censorPrivateInfo`.  The filter `m_censorFilter` is given by
its entries in the order the map iterates over them (ascending keys). -/
def censorPrivateInfo (m_censorFilter : List (String × String)) (line : String) : String :=
  m_censorFilter.foldl (fun line iter => QString.replace iter.1 iter.2 line) line

/-- The words of the specification of censoring, as a relation to compare
`censorPrivateInfo` with: the line `out` is the line `l` with every
non-overlapping occurrence of `key`, scanned from left to right, replaced by
`value`, and every other character unchanged. -/
inductive ReplacedLeftToRight (key value : List Char) : List Char → List Char → Prop where
  | done : ReplacedLeftToRight key value [] []
  | occurrence (rest out : List Char) : ReplacedLeftToRight key value rest out →
      ReplacedLeftToRight key value (key ++ rest) (value ++ out)
  | other (c : Char) (rest out : List Char) : ¬ (key <+: c :: rest) →
      ReplacedLeftToRight key value rest out →
      ReplacedLeftToRight key value (c :: rest) (c :: out)

end LaunchTask

namespace QString

/-- The fields of a text between the separators `sep`, empty fields kept
(`QString::split` with `KeepEmptyParts`). -/
def fields (sep : Char) : List Char → List (List Char)
  | [] => [[]]
  | c :: cs =>
    if c = sep then [] :: fields sep cs
    else
      match fields sep cs with
      | [] => [[c]]
      | f :: fs => (c :: f) :: fs

/-- The fields put together again, with `sep` between them. -/
def join (sep : Char) : List (List Char) → List Char
  | [] => []
  | [f] => f
  | f :: g :: fs => f ++ sep :: join sep (g :: fs)

/-- The library function `QString::section(sep, start, end)` with the default
flags: the text is seen as fields separated by `sep`, and the fields from
`start` to `end` are returned, with the separators between them; a negative
position counts from the last field backwards. -/
def section_ (s : String) (sep : Char) (start stop : Int) : String :=
  let sections := fields sep s.data
  let sectionsSize : Int := sections.length
  let start := if start < 0 then start + sectionsSize else start
  let stop := if stop < 0 then stop + sectionsSize else stop
  if start ≥ sectionsSize ∨ stop < 0 ∨ start > stop then
    ""
  else
    ⟨join sep ((sections.drop start.toNat).take (stop.toNat + 1 - start.toNat))⟩

/-- White space as `QString::toInt` skips it at both ends of the text. -/
def isSpace (c : Char) : Bool :=
  c = ' ' || (9 ≤ c.toNat && c.toNat ≤ 13)

/-- The text without the white space at its two ends. -/
def trimmed (l : List Char) : List Char :=
  ((l.dropWhile isSpace).reverse.dropWhile isSpace).reverse

/-- The number written by decimal digits after the digits read so far; `none`
when a character is not a digit. -/
def readDigits : Nat → List Char → Option Nat
  | acc, [] => some acc
  | acc, c :: cs =>
    if 48 ≤ c.toNat ∧ c.toNat ≤ 57 then readDigits (10 * acc + (c.toNat - 48)) cs
    else none

/-- The number written by a non-empty text of decimal digits. -/
def readNumber : List Char → Option Nat
  | [] => none
  | c :: cs => readDigits 0 (c :: cs)

/-- The library function `QString::toInt()` in base 10: white space at the
ends is skipped, a sign may come first, and the result is 0 when the text is
not a number in this form or the number does not fit a 32-bit `int`. -/
def toInt (s : String) : Int :=
  let value : Option Int :=
    match trimmed s.data with
    | '-' :: ds => (readNumber ds).map (fun n => -(n : Int))
    | '+' :: ds => (readNumber ds).map (fun n => (n : Int))
    | ds => (readNumber ds).map (fun n => (n : Int))
  match value with
  | some n => if -2147483648 ≤ n ∧ n ≤ 2147483647 then n else 0
  | none => 0

/-- The expression `s + n` with `n` an `int`: the overload `QString + char`
is taken, so the integer is converted to one character (its low byte) and
that character is appended, not the decimal digits of the integer. -/
def plusInt (s : String) (n : Int) : String :=
  s.push (Char.ofNat (n % 256).toNat)

end QString

/-- The values of `MessageLevel::Enum`: the three that `LaunchTask::onLogLine`
names, and the remaining values of the enumeration, which is declared in
`MessageLevel.h` (not among the sources). -/
inductive MessageLevel where
  | Unknown
  | StdOut
  | StdErr
  | other (n : Nat)
  deriving DecidableEq, Repr

/-- The collaborators of the log intake of a `LaunchTask`, for a log model of
type `LogModel`: `MessageLevel::fromLine` (declared in `MessageLevel.h`, not
among the sources; it is handed the line as a modifiable text, so it answers
with the level and the line as it leaves it), the classifier
`guessLevel` of the instance, the censor filter, the log model that
`getLogModel` creates when there is none yet, and `LogModel::append`. -/
structure LogIntake (LogModel : Type) where
  fromLine : String → MessageLevel × String
  guessLevel : String → MessageLevel → MessageLevel
  m_censorFilter : List (String × String)
  newLogModel : LogModel
  append : MessageLevel → String → LogModel → LogModel

namespace LaunchTask

/-- `LaunchTask::getLogModel`: the log model of the task, created on first
use. -/
def getLogModel {LogModel : Type} (io : LogIntake LogModel) (m_logModel : Option LogModel) :
    LogModel :=
  match m_logModel with
  | some model => model
  | none => io.newLogModel

/-- `LaunchTask::onLogLine`: the member `m_logModel` afterwards. -/
def onLogLine {LogModel : Type} (io : LogIntake LogModel) (line : String)
    (level : MessageLevel) (m_logModel : Option LogModel) : Option LogModel :=
  let (innerLevel, line) := io.fromLine line
  let level := if innerLevel ≠ .Unknown then innerLevel else level
  let level :=
    if level = .StdErr ∨ level = .StdOut ∨ level = .Unknown then io.guessLevel line level
    else level
  let line := censorPrivateInfo io.m_censorFilter line
  some (io.append level line (getLogModel io m_logModel))

/-- `LaunchTask::onLogLines`. -/
def onLogLines {LogModel : Type} (io : LogIntake LogModel) (lines : List String)
    (defaultLevel : MessageLevel) (m_logModel : Option LogModel) : Option LogModel :=
  lines.foldl (fun m line => onLogLine io line defaultLevel m) m_logModel

end LaunchTask

/-- A log intake for the examples.  Its `fromLine` knows the marker
`!![INFO]!` at the start of a line: it answers with the level the marker
stands for and takes the marker off the line; any other line carries no level
(`Unknown`) and is left as it is.  Its classifier gives a level of its own to
the lines that start with `token=secret` and keeps the level of all others.
Its filter censors `secret`, and its log model is the list of the entries in
the order they were appended. -/
def LogIntake.withInfoMarker : LogIntake (List (MessageLevel × String)) :=
  { fromLine := fun line =>
      if QString.startsWith "!![INFO]!".data line.data then
        (MessageLevel.other 1, ⟨line.data.drop "!![INFO]!".data.length⟩)
      else (MessageLevel.Unknown, line),
    guessLevel := fun line level =>
      if QString.startsWith "token=secret".data line.data then MessageLevel.other 2 else level,
    m_censorFilter := [("secret", "***")],
    newLogModel := [],
    append := fun level line model => model ++ [(level, line)] }

/-- The values of `MultiServerMC::Status` that the code assigns or tests, and
the status of an application that has not reached any of them yet. -/
inductive Status where
  | StartingUp
  | Failed
  | Succeeded
  | Initialized
  deriving DecidableEq, Repr

/-- One instance as the application sees it: its id and its answers to
`canLaunch()`, `isRunning()` and `canEdit()`. -/
structure Instance where
  id : String
  canLaunch : Bool
  isRunning : Bool
  canEdit : Bool
  deriving DecidableEq, Repr

/-- The widget a controller is parented to. -/
inductive Widget where
  | mainWindow
  | instanceWindow (id : String)
  deriving DecidableEq, Repr

/-- What `MultiServerMC::launch` sets on a `LaunchController`. -/
structure LaunchController where
  inst : Instance
  online : Bool
  profiler : Option String
  serverPort : Int
  parentWidget : Option Widget
  deriving DecidableEq, Repr

/-- An open window of an instance. -/
structure InstanceWindow where
  instanceId : String
  deriving DecidableEq, Repr

/-- The entry of one instance in `m_instanceExtras`. -/
structure InstanceXtras where
  window : Option InstanceWindow
  controller : Option LaunchController
  deriving DecidableEq, Repr

/-- What the application does to its windows and controllers, in order. -/
inductive AppEvent where
  /-- The main window is raised and activated. -/
  | mainWindowRaised
  /-- A new main window is created and shown. -/
  | mainWindowShown (minimized : Bool)
  /-- The call `m_mainWindow->droppedURLs` with one URL; `mainWindow` tells
  whether `m_mainWindow` points to a window at that moment, which the code
  does not test. -/
  | droppedURLs (mainWindow : Bool) (url : String)
  /-- The call `saveAll()` on the window of an instance. -/
  | saveAll (id : String)
  /-- The call `start()` on the new controller of an instance. -/
  | controllerStart (id : String)
  /-- The window of an instance is raised and activated. -/
  | windowRaised (id : String)
  /-- A new window is created for an instance. -/
  | windowCreated (id : String)
  /-- The call `selectPage(page)` on the window of an instance. -/
  | selectPage (id : String) (page : String)
  /-- The signal `updateAllowedChanged(allowed)`. -/
  | updateAllowedChanged (allowed : Bool)
  /-- The call `close()` on the window of an instance. -/
  | windowClose (id : String)
  /-- The call `exit(returnCode)`, which asks the event loop to end with that
  code. -/
  | exit (returnCode : Int)
  deriving DecidableEq, Repr

/-- The members of the application object that message dispatch and the
launch registry read and write, the instances it knows, the answer of the
window of each instance to `saveAll()`, and the trace of what it has done. -/
structure MultiServerMC where
  m_status : Status
  m_updateRunning : Bool
  m_runningInstances : Nat
  m_openWindows : Nat
  m_mainWindow : Bool
  m_instanceExtras : String → InstanceXtras
  instances : List Instance
  windowSaveAll : String → Bool
  trace : List AppEvent

namespace MultiServerMC

/-- The messages the client branch of the constructor sends to the primary
process (`m_peerInstance->sendMessage`), in order. -/
def sendClientMessages (m_instanceIdToLaunch : String) (m_serverPort : Int)
    (m_zipToImport : String) : List String :=
  if m_instanceIdToLaunch.data = [] then
    ["activate"] ++ (if m_zipToImport.data ≠ [] then ["import " ++ m_zipToImport] else [])
  else
    if m_serverPort = 0 then
      [QString.plusInt ("launch-with-port " ++ m_instanceIdToLaunch ++ " ") m_serverPort]
    else
      ["launch " ++ m_instanceIdToLaunch]

/-- The constructor of `MultiServerMC` from the check of the port option on,
in a process that finds itself to be a client (`m_peerInstance->isClient()`):
the status it ends with and the messages it has sent. -/
def constructAsClient (m_instanceIdToLaunch : String) (m_serverPort : Int)
    (m_zipToImport : String) : Status × List String :=
  if m_instanceIdToLaunch.data = [] ∧ m_serverPort ≠ 0 then
    (.Failed, [])
  else
    (.Succeeded, sendClientMessages m_instanceIdToLaunch m_serverPort m_zipToImport)

/-- Append one event to the trace of the application. -/
def log (e : AppEvent) (app : MultiServerMC) : MultiServerMC :=
  { app with trace := app.trace ++ [e] }

/-- Modelled from the spec: `InstanceList::getInstanceById` (the instance
list is not among the sources) finds the instance with the given id, if
there is one. -/
def getInstanceById (app : MultiServerMC) (id : String) : Option Instance :=
  app.instances.find? (fun inst => inst.id = id)

/-- `MultiServerMC::showMainWindow`. -/
def showMainWindow (minimized : Bool) (app : MultiServerMC) : MultiServerMC :=
  if app.m_mainWindow then
    log .mainWindowRaised app
  else
    let app := log (.mainWindowShown minimized) { app with m_mainWindow := true }
    { app with m_openWindows := app.m_openWindows + 1 }

/-- `MultiServerMC::addRunningInstance`. -/
def addRunningInstance (app : MultiServerMC) : MultiServerMC :=
  let app := { app with m_runningInstances := app.m_runningInstances + 1 }
  if app.m_runningInstances = 1 then log (.updateAllowedChanged false) app else app

/-- `MultiServerMC::showInstanceWindow`, for an instance that is not null. -/
def showInstanceWindow (inst : Instance) (page : String) (app : MultiServerMC) :
    MultiServerMC :=
  let id := inst.id
  let extras := app.m_instanceExtras id
  let (window, app) :=
    match extras.window with
    | some window => (window, log (.windowRaised id) app)
    | none =>
      let window : InstanceWindow := { instanceId := id }
      (window, log (.windowCreated id) { app with m_openWindows := app.m_openWindows + 1 })
  let app := if page.data ≠ [] then log (.selectPage id page) app else app
  let controller := extras.controller.map
    (fun c => { c with parentWidget := some (.instanceWindow window.instanceId) })
  { app with
    m_instanceExtras :=
      Function.update app.m_instanceExtras id { window := some window, controller := controller } }

/-- `MultiServerMC::launch`: the returned flag and the application
afterwards. -/
def launch (inst : Instance) (online : Bool) (profiler : Option String) (serverPort : Int)
    (app : MultiServerMC) : Bool × MultiServerMC :=
  if app.m_updateRunning then
    (false, app)
  else if inst.canLaunch then
    let extras := app.m_instanceExtras inst.id
    let window := extras.window
    let app := if window.isSome then log (.saveAll inst.id) app else app
    if window.isSome ∧ app.windowSaveAll inst.id = false then
      (false, app)
    else
      let controller : LaunchController :=
        { inst := inst, online := online, profiler := profiler, serverPort := serverPort,
          parentWidget :=
            match window with
            | some w => some (.instanceWindow w.instanceId)
            | none => if app.m_mainWindow then some .mainWindow else none }
      let app := { app with
        m_instanceExtras :=
          Function.update app.m_instanceExtras inst.id
            { window := window, controller := some controller } }
      let app := addRunningInstance app
      (true, log (.controllerStart inst.id) app)
  else if inst.isRunning then
    (true, showInstanceWindow inst "console" app)
  else if inst.canEdit then
    (true, showInstanceWindow inst "" app)
  else
    (false, app)

/-- Modelled from the spec: the default of the parameter `serverPort` of
`launch`, declared in `MultiServerMC.h` (not among the sources); the port is
optional and 0 stands for no port. -/
def launchDefaultServerPort : Int := 0

/-- `MultiServerMC::messageReceived`, with the member function `launch` it
dispatches to as a parameter.  `showMainWindow()` is called with its default
argument (not minimized), and the three-argument call of `launch` takes the
default of `serverPort`. -/
def messageReceivedWith
    (launch : Instance → Bool → Option String → Int → MultiServerMC → Bool × MultiServerMC)
    (message : String) (app : MultiServerMC) : MultiServerMC :=
  if app.m_status ≠ .Initialized then
    app
  else
    let command := QString.section_ message ' ' 0 0
    if command = "activate" then
      showMainWindow false app
    else if command = "import" then
      let arg := QString.section_ message ' ' 1 (-1)
      if arg.data = [] then app
      else log (.droppedURLs app.m_mainWindow arg) app
    else if command = "launch" then
      let arg := QString.section_ message ' ' 1 (-1)
      if arg.data = [] then app
      else
        match getInstanceById app arg with
        | some inst => (launch inst true none launchDefaultServerPort app).2
        | none => app
    else if command = "launch-with-port" then
      let instanceID := QString.section_ message ' ' 1 1
      let serverPort := QString.toInt (QString.section_ message ' ' 2 2)
      if instanceID.data = [] then app
      else if serverPort = 0 then app
      else
        match getInstanceById app instanceID with
        | some inst => (launch inst true none serverPort app).2
        | none => app
    else
      app

/-- `MultiServerMC::messageReceived`. -/
def messageReceived (message : String) (app : MultiServerMC) : MultiServerMC :=
  messageReceivedWith launch message app

end MultiServerMC

namespace MultiServerMC

/-- An application with the given status and instances and nothing else: no
window, no controller, no running instance, no update in progress; its
windows answer `saveAll()` with true. -/
def blank (m_status : Status) (instances : List Instance) : MultiServerMC :=
  { m_status := m_status, m_updateRunning := false, m_runningInstances := 0,
    m_openWindows := 0, m_mainWindow := false,
    m_instanceExtras := fun _ => { window := none, controller := none },
    instances := instances, windowSaveAll := fun _ => true, trace := [] }

end MultiServerMC

/-! ## Shutdown bookkeeping, options of the command line, icons and the search in
the log: definitions -/

namespace MultiServerMC

/-- `MultiServerMC::kill`: the returned flag and the application afterwards.
`LaunchController::abort` is not among the sources: it is the parameter
`abort`, with its result and whatever it does to the application. -/
def kill (abort : LaunchController → MultiServerMC → Bool × MultiServerMC) (inst : Instance)
    (app : MultiServerMC) : Bool × MultiServerMC :=
  if inst.isRunning = false then
    (false, app)
  else
    match (app.m_instanceExtras inst.id).controller with
    | some controller => abort controller app
    | none => (true, app)

/-- `MultiServerMC::subRunningInstance`. -/
def subRunningInstance (app : MultiServerMC) : MultiServerMC :=
  if app.m_runningInstances = 0 then
    app
  else
    let app := { app with m_runningInstances := app.m_runningInstances - 1 }
    if app.m_runningInstances = 0 then log (.updateAllowedChanged true) app else app

/-- `MultiServerMC::shouldExitNow`. -/
def shouldExitNow (app : MultiServerMC) : Bool :=
  decide (app.m_runningInstances = 0) && decide (app.m_openWindows = 0)

/-- `MultiServerMC::updatesAreAllowed`. -/
def updatesAreAllowed (app : MultiServerMC) : Bool :=
  decide (app.m_runningInstances = 0)

/-- `MultiServerMC::updateIsRunning`. -/
def updateIsRunning (running : Bool) (app : MultiServerMC) : MultiServerMC :=
  { app with m_updateRunning := running }

/-- `MultiServerMC::on_windowClose`.  The sender of the signal is the window
of an instance, the main window, or neither.  The decrement `m_openWindows--`
has no guard: the declaration of the count, in `MultiServerMC.h`, is not
among the sources, and it is taken as an unsigned 64-bit count, so a
decrement at zero wraps around and leaves a count that is not zero. -/
def on_windowClose (sender : Option Widget) (app : MultiServerMC) : MultiServerMC :=
  let app := { app with
    m_openWindows :=
      if app.m_openWindows = 0 then 18446744073709551615 else app.m_openWindows - 1 }
  let app :=
    match sender with
    | some (.instanceWindow instanceId) =>
      let extras := app.m_instanceExtras instanceId
      let controller := extras.controller.map
        (fun c => { c with parentWidget := if app.m_mainWindow then some .mainWindow else none })
      { app with
        m_instanceExtras :=
          Function.update app.m_instanceExtras instanceId
            { window := none, controller := controller } }
    | _ => app
  let app :=
    match sender with
    | some .mainWindow => { app with m_mainWindow := false }
    | _ => app
  if shouldExitNow app then log (.exit 0) app else app

/-- The call `window->close()` on the window of an instance.
`InstanceWindow::close` is not among the sources; a window that goes through
with closing emits `isClosing()`, which `showInstanceWindow` connects to
`on_windowClose`, and `isClosing` tells whether this window does. -/
def closeWindow (isClosing : Bool) (window : InstanceWindow) (app : MultiServerMC) :
    MultiServerMC :=
  let app := log (.windowClose window.instanceId) app
  if isClosing then on_windowClose (some (.instanceWindow window.instanceId)) app else app

/-- `MultiServerMC::controllerSucceeded`.  The sender of the signal is a
controller or not; `autoCloseConsole` is the setting `AutoCloseConsole` of
the instance of the controller. -/
def controllerSucceeded (sender : Option LaunchController) (autoCloseConsole isClosing : Bool)
    (app : MultiServerMC) : MultiServerMC :=
  match sender with
  | none => app
  | some controller =>
    let id := controller.inst.id
    let app :=
      if autoCloseConsole then
        match (app.m_instanceExtras id).window with
        | some window => closeWindow isClosing window app
        | none => app
      else app
    let app := { app with
      m_instanceExtras :=
        Function.update app.m_instanceExtras id
          { window := (app.m_instanceExtras id).window, controller := none } }
    let app := subRunningInstance app
    if shouldExitNow app then
      log (.exit 0) { app with m_status := .Succeeded }
    else app

/-- `MultiServerMC::controllerFailed`. -/
def controllerFailed (sender : Option LaunchController) (_error : String)
    (app : MultiServerMC) : MultiServerMC :=
  match sender with
  | none => app
  | some controller =>
    let id := controller.inst.id
    let app := { app with
      m_instanceExtras :=
        Function.update app.m_instanceExtras id
          { window := (app.m_instanceExtras id).window, controller := none } }
    let app := subRunningInstance app
    if shouldExitNow app then
      log (.exit 1) { app with m_status := .Failed }
    else app

/-- The bookkeeping that `controllerSucceeded` and `controllerFailed` share:
the controller of the instance is cleared, the counter of running instances
is lowered, and when nothing runs and no window is open any more the status
is set and `exit` is called with the given code. -/
def finishController (id : String) (returnCode : Int) (status : Status)
    (app : MultiServerMC) : MultiServerMC :=
  let app := { app with
    m_instanceExtras :=
      Function.update app.m_instanceExtras id
        { window := (app.m_instanceExtras id).window, controller := none } }
  let app := subRunningInstance app
  if shouldExitNow app then
    log (.exit returnCode) { app with m_status := status }
  else app

/-- The events of the launch registry. -/
inductive RegistryEvent where
  /-- A call of `launch`. -/
  | launch (inst : Instance) (online : Bool) (profiler : Option String) (serverPort : Int)
  /-- The signal `succeeded` of a controller. -/
  | controllerSucceeded (sender : Option LaunchController) (autoCloseConsole isClosing : Bool)
  /-- The signal `failed` of a controller. -/
  | controllerFailed (sender : Option LaunchController) (error : String)
  /-- A call of `showInstanceWindow`. -/
  | windowOpened (inst : Instance) (page : String)
  /-- A call of `showMainWindow`. -/
  | mainWindowOpened (minimized : Bool)
  /-- The signal `isClosing` of a window. -/
  | windowClosed (sender : Option Widget)

/-- Whether a registry event is the failure of a controller. -/
def RegistryEvent.isControllerFailed : RegistryEvent → Bool
  | .controllerFailed _ _ => true
  | _ => false

/-- The application after one registry event. -/
def applyRegistryEvent : RegistryEvent → MultiServerMC → MultiServerMC
  | .launch inst online profiler serverPort, app => (launch inst online profiler serverPort app).2
  | .controllerSucceeded sender autoCloseConsole isClosing, app =>
    controllerSucceeded sender autoCloseConsole isClosing app
  | .controllerFailed sender error, app => controllerFailed sender error app
  | .windowOpened inst page, app => showInstanceWindow inst page app
  | .mainWindowOpened minimized, app => showMainWindow minimized app
  | .windowClosed sender, app => on_windowClose sender app

/-- The application after a sequence of registry events. -/
def runRegistry (events : List RegistryEvent) (app : MultiServerMC) : MultiServerMC :=
  events.foldl (fun app ev => applyRegistryEvent ev app) app

/-- The return codes of the calls of `exit` in a trace, in order; the process
ends with the last one. -/
def exitCodes : List AppEvent → List Int
  | [] => []
  | .exit returnCode :: es => returnCode :: exitCodes es
  | _ :: es => exitCodes es

/-- The two operations on the counter of running instances. -/
inductive CounterOp where
  | addRunningInstance
  | subRunningInstance
  deriving DecidableEq, Repr

/-- The application after one operation on the counter. -/
def applyCounterOp : CounterOp → MultiServerMC → MultiServerMC
  | .addRunningInstance, app => addRunningInstance app
  | .subRunningInstance, app => subRunningInstance app

/-- The application after a sequence of operations on the counter. -/
def runCounterOps (ops : List CounterOp) (app : MultiServerMC) : MultiServerMC :=
  ops.foldl (fun app op => applyCounterOp op app) app

/-- The value of the most recent signal `updateAllowedChanged` in a trace, if
there is one. -/
def lastUpdateAllowed (tr : List AppEvent) : Option Bool :=
  tr.foldl
    (fun last e =>
      match e with
      | .updateAllowedChanged allowed => some allowed
      | _ => last)
    none

/-- What the counter and the signals have in common after operations on the
counter: the most recent signal, if any, tells whether the counter is zero,
and without any signal the counter is zero. -/
def CounterInv (app : MultiServerMC) : Prop :=
  (lastUpdateAllowed app.trace = none → app.m_runningInstances = 0) ∧
    ∀ allowed, lastUpdateAllowed app.trace = some allowed →
      allowed = decide (app.m_runningInstances = 0)

end MultiServerMC

namespace QString

/-- The library function `QString::toLongLong()` in base 10: as `toInt`, with
the range of a 64-bit integer. -/
def toLongLong (s : String) : Int :=
  let value : Option Int :=
    match trimmed s.data with
    | '-' :: ds => (readNumber ds).map (fun n => -(n : Int))
    | '+' :: ds => (readNumber ds).map (fun n => (n : Int))
    | ds => (readNumber ds).map (fun n => (n : Int))
  match value with
  | some n => if -9223372036854775808 ≤ n ∧ n ≤ 9223372036854775807 then n else 0
  | none => 0

end QString

namespace QVariant

/-- The library function `QVariant::toString()` on the value of an option of
the command line: the text of the option, or the empty text when the option
was not given (an invalid variant). -/
def toString (v : Option String) : String :=
  match v with
  | some s => s
  | none => ""

/-- The library function `QVariant::toInt()` on the value of an option of the
command line: 0 when the option was not given; otherwise the text is read as
a 64-bit number (0 when it is not one) and narrowed to a 32-bit `int`, an
overflow not being reported. -/
def toInt (v : Option String) : Int :=
  match v with
  | some s => (QString.toLongLong s + 2147483648) % 4294967296 - 2147483648
  | none => 0

end QVariant

namespace MultiServerMC

/-- The constructor of `MultiServerMC` in a client process, from the values
of the options `launch`, `port` and `import` as parsed from the command line:
the members are taken from the arguments
(`m_instanceIdToLaunch = args["launch"].toString()`,
`m_serverPort = args["port"].toInt()`, `m_zipToImport = args["import"].toUrl()`)
and the constructor goes on with the check of the port option. -/
def constructAsClientWithArgs (launchArg portArg zipArg : Option String) :
    Status × List String :=
  constructAsClient (QVariant.toString launchArg) (QVariant.toInt portArg)
    (QVariant.toString zipArg)

end MultiServerMC

/-- The enumeration `IconType` of `icons/IIconList.h`, with the values that
`MSMCIcon.h` and `MSMCIcon.cpp` use: the three kinds of image
`Builtin < Transient < FileBased`, in the order `operator--` steps through,
are the slots of `m_images`; `ICONS_TOTAL` is the size of that array, and
`ToBeDeleted` is the kind of an icon without image. -/
inductive IconType where
  | Builtin
  | Transient
  | FileBased
  | ICONS_TOTAL
  | ToBeDeleted
  deriving DecidableEq, Repr

/-- The value of an `IconType` as a number.  Only the order of the three
slots among themselves is used: `replace` compares two kinds only after it has
set aside the case that `m_current_type` is `ToBeDeleted`. -/
def IconType.toNat : IconType → Nat
  | .Builtin => 0
  | .Transient => 1
  | .FileBased => 2
  | .ICONS_TOTAL => 3
  | .ToBeDeleted => 4

/-- Whether an `IconType` is an index into the array `m_images`. -/
def IconType.isSlot : IconType → Bool
  | .Builtin => true
  | .Transient => true
  | .FileBased => true
  | _ => false

/-- The value `operator--(IconType &, int)` leaves in its argument. -/
def IconType.decremented : IconType → IconType
  | .Builtin => .ToBeDeleted
  | .Transient => .Builtin
  | .FileBased => .Transient
  | t => t

/-- The struct `MSMCImage`; `icon` is `none` for a null `QIcon`. -/
structure MSMCImage where
  icon : Option String
  key : String
  filename : String
  deriving DecidableEq, Repr

/-- `MSMCImage::present`. -/
def MSMCImage.present (image : MSMCImage) : Bool :=
  image.icon.isSome || decide (image.key.data ≠ [])

/-- The members of the struct `MSMCIcon` that `remove` and `replace` read
and write. -/
structure MSMCIcon where
  m_images : IconType → MSMCImage
  m_current_type : IconType

namespace MSMCIcon

/-- A fresh icon: no image in any slot, and the kind `ToBeDeleted`. -/
def fresh : MSMCIcon :=
  { m_images := fun _ => { icon := none, key := "", filename := "" },
    m_current_type := .ToBeDeleted }

/-- `MSMCIcon::has`. -/
def has (icon : MSMCIcon) (type : IconType) : Bool :=
  (icon.m_images type).present

/-- The loop of `MSMCIcon::remove`,
`for (auto iter = rm_type; iter != ToBeDeleted; iter--)`: the kind it leaves
in `m_current_type`, or `none` when the fuel runs out. -/
def removeLoop (m_images : IconType → MSMCImage) : Nat → IconType → Option IconType
  | 0, _ => none
  | fuel + 1, iter =>
    if iter = .ToBeDeleted then some .ToBeDeleted
    else if (m_images iter).present then some iter
    else removeLoop m_images fuel iter.decremented

/-- `MSMCIcon::remove`, for a kind that is a slot of `m_images`; `none` for
another kind, or when the loop does not end within four rounds. -/
def remove (rm_type : IconType) (icon : MSMCIcon) : Option MSMCIcon :=
  if rm_type.isSlot then
    let m_images := Function.update icon.m_images rm_type
      { icon := none, key := (icon.m_images rm_type).key, filename := "" }
    (removeLoop m_images 4 rm_type).map
      (fun type => { m_images := m_images, m_current_type := type })
  else none

/-- The new `m_current_type` of the two overloads of `MSMCIcon::replace`. -/
def replacedType (new_type : IconType) (icon : MSMCIcon) : IconType :=
  if new_type.toNat > icon.m_current_type.toNat ∨ icon.m_current_type = .ToBeDeleted then
    new_type
  else icon.m_current_type

/-- `MSMCIcon::replace(IconType, QIcon, QString)`, for a kind that is a slot
of `m_images`. -/
def replace (new_type : IconType) (newIcon : Option String) (path : String)
    (icon : MSMCIcon) : Option MSMCIcon :=
  if new_type.isSlot then
    some
      { m_images := Function.update icon.m_images new_type
          { icon := newIcon, key := "", filename := path },
        m_current_type := replacedType new_type icon }
  else none

/-- `MSMCIcon::replace(IconType, const QString &)`, for a kind that is a slot
of `m_images`. -/
def replaceKey (new_type : IconType) (key : String) (icon : MSMCIcon) : Option MSMCIcon :=
  if new_type.isSlot then
    some
      { m_images := Function.update icon.m_images new_type
          { icon := none, key := key, filename := "" },
        m_current_type := replacedType new_type icon }
  else none

/-- The words of the specification on `m_current_type`: `ToBeDeleted` when
no slot is present, otherwise the highest kind whose slot is present. -/
def highestPresent (icon : MSMCIcon) : IconType :=
  if icon.has .FileBased then .FileBased
  else if icon.has .Transient then .Transient
  else if icon.has .Builtin then .Builtin
  else .ToBeDeleted

end MSMCIcon

namespace LogFormatProxyModel

/-- The lambda `compare` of `LogFormatProxyModel::find`, for a valid start
index in row `start` of a list model with the texts `rows`: the row of the
index it returns, or `none` for an invalid index.  The library function
`QString::contains(value, Qt::CaseInsensitive)` is the parameter
`contains`. -/
def compare (rows : List String) (contains : String → String → Bool) (start : Nat)
    (value : String) (r : Int) : Option Nat :=
  if r < 0 ∨ (rows.length : Int) ≤ r then
    none
  else if r = (start : Int) then
    none
  else
    match rows[r.toNat]? with
    | some t => if contains t value then some r.toNat else none
    | none => none

/-- The loop `for (int r = from; (r < to); ++r)` of `find`, counted by the
number of rounds still to run: the first valid index `compare` returns. -/
def forwardLoop (cmp : Int → Option Nat) : Nat → Int → Option Nat
  | 0, _ => none
  | rounds + 1, r =>
    match cmp r with
    | some idx => some idx
    | none => forwardLoop cmp rounds (r + 1)

/-- The loop `for (int r = from; (r >= to); --r)` of `find`, counted by the
number of rounds still to run. -/
def backwardLoop (cmp : Int → Option Nat) : Nat → Int → Option Nat
  | 0, _ => none
  | rounds + 1, r =>
    match cmp r with
    | some idx => some idx
    | none => backwardLoop cmp rounds (r - 1)

/-- `LogFormatProxyModel::find`: the row of the index returned, or `none` for
an invalid index.  The loop over `i` runs twice, with `from` and `to` set
anew after the first round. -/
def find (rows : List String) (contains : String → String → Bool) (start : Nat)
    (value : String) (reverse : Bool) : Option Nat :=
  let rowCount : Int := rows.length
  if reverse then
    match backwardLoop (compare rows contains start value)
        ((start : Int) - 0 + 1).toNat (start : Int) with
    | some idx => some idx
    | none =>
      backwardLoop (compare rows contains start value)
        ((rowCount - 1) - (start : Int) + 1).toNat (rowCount - 1)
  else
    match forwardLoop (compare rows contains start value)
        (rowCount - (start : Int)).toNat (start : Int) with
    | some idx => some idx
    | none =>
      forwardLoop (compare rows contains start value) ((start : Int) - 0).toNat 0

/-- Whether the text of row `r` contains the search value. -/
def rowMatches (rows : List String) (contains : String → String → Bool) (value : String)
    (r : Nat) : Bool :=
  match rows[r]? with
  | some t => contains t value
  | none => false

/-- The words of the specification: the rows after `s` in cyclic order,
`s+1, ..., n-1, 0, ..., s-1`. -/
def forwardOrder (n s : Nat) : List Nat :=
  List.range' (s + 1) (n - s - 1) ++ List.range s

/-- The words of the specification: the rows before `s` in cyclic order,
`s-1, ..., 0, n-1, ..., s+1`. -/
def reverseOrder (n s : Nat) : List Nat :=
  (List.range s).reverse ++ (List.range' (s + 1) (n - s - 1)).reverse

end LogFormatProxyModel

namespace QString

/-- A model of `QString::contains(value, Qt::CaseInsensitive)` for texts in
ASCII: the lower-case form of `value` stands somewhere in the lower-case form
of `t`. -/
def containsCaseInsensitive (t value : String) : Bool :=
  (t.data.map Char.toLower).tails.any (startsWith (value.data.map Char.toLower))

end QString

/-! ## Lemmas on the operations -/

namespace LaunchTask

theorem assembled_aux (steps : List LaunchStep) (t : LaunchTask) :
    steps.foldl (fun t s => appendStep s t) t = { t with m_steps := t.m_steps ++ steps } := by
  induction steps generalizing t with
  | nil => simp
  | cons s rest ih =>
    rw [List.foldl_cons, ih]
    simp [appendStep]

theorem assembled_eq (steps : List LaunchStep) :
    assembled steps =
      { state := .NotStarted, currentStep := -1, m_steps := steps,
        trace := [.setRunning true] } := by
  simp [assembled, assembled_aux, create, init, constructed, log]

theorem stepAt_ok (t : LaunchTask) (i : Nat) (s : LaunchStep) (h : t.m_steps[i]? = some s) :
    stepAt t (i : Int) = .ok (i, s) := by
  simp [stepAt, h]

theorem stepAt_lt (t : LaunchTask) (i : Nat) (h : i < t.m_steps.length) :
    ∃ s, t.m_steps[i]? = some s ∧ stepAt t (i : Int) = .ok (i, s) := by
  refine ⟨t.m_steps[i], ?_, ?_⟩
  · simp [List.getElem?_eq_getElem h]
  · exact stepAt_ok t i _ (by simp [List.getElem?_eq_getElem h])

theorem finalizeEvents_succ (n : Nat) :
    finalizeEvents (n + 1) = Event.finalize n :: finalizeEvents n := by
  simp [finalizeEvents, List.range_succ]

theorem startEvents_succ (n : Nat) :
    startEvents (n + 1) = startEvents n ++ [Event.start n] := by
  simp [startEvents, List.range_succ]

theorem finalizeLoop_ok (n : Nat) (t : LaunchTask) (h : n ≤ t.m_steps.length) :
    finalizeLoop n t = .ok { t with trace := t.trace ++ finalizeEvents n } := by
  induction n generalizing t with
  | zero => simp [finalizeLoop, finalizeEvents, pure, Except.pure]
  | succ n ih =>
    obtain ⟨s, -, hs⟩ := stepAt_lt t n (by omega)
    have h2 : n ≤ (log (.finalize n) t).m_steps.length := by simp [log]; omega
    rw [finalizeLoop]
    simp only [hs, bind, Except.bind]
    rw [ih _ h2]
    simp [log, finalizeEvents_succ]

theorem finalizeSteps_ok (successful : Bool) (error : String) (t : LaunchTask) (c : Nat)
    (hc : t.currentStep = (c : Int)) (h : c < t.m_steps.length) :
    finalizeSteps successful error t =
      .ok { t with trace := t.trace ++ finalizeEvents (c + 1) ++ outcomeEvents successful error } := by
  have h1 : (t.currentStep + 1).toNat = c + 1 := by rw [hc]; omega
  simp only [finalizeSteps, h1, finalizeLoop_ok (c + 1) t (by omega), bind, Except.bind]
  cases successful <;>
    simp [emitSucceeded, emitFailed, log, outcomeEvents, pure, Except.pure]

theorem onStepFinished_first (t : LaunchTask) (h : t.currentStep = -1)
    (hN : 0 < t.m_steps.length) :
    onStepFinished t = .ok (log (.start 0) { t with currentStep := 0 }) := by
  obtain ⟨s, -, hs⟩ := stepAt_lt { t with currentStep := 0 } 0 hN
  simp only [Nat.cast_zero] at hs
  simp [onStepFinished, h, hs, bind, Except.bind, pure, Except.pure]

theorem onStepFinished_next (t : LaunchTask) (n : Nat) (s : LaunchStep)
    (hc : t.currentStep = (n : Int)) (hs : t.m_steps[n]? = some s)
    (hsucc : s.wasSuccessful = true) (hn : n + 1 < t.m_steps.length) :
    onStepFinished t = .ok (log (.start (n + 1)) { t with currentStep := ((n + 1 : Nat) : Int) }) := by
  have h1 : ¬ ((n : Int) = -1) := by omega
  have h2 : ¬ ((n : Int) = (t.m_steps.length : Int) - 1) := by omega
  obtain ⟨s2, -, hs2⟩ := stepAt_lt { t with currentStep := ((n + 1 : Nat) : Int) } (n + 1) hn
  have hs1 := stepAt_ok t n s hs
  simp only [onStepFinished, hc, h1, h2, hs1, hsucc, bind, Except.bind, if_false, if_true]
  push_cast at hs2 ⊢
  simp [hs2, pure, Except.pure]

theorem onStepFinished_last (t : LaunchTask) (n : Nat) (s : LaunchStep)
    (hc : t.currentStep = (n : Int)) (hs : t.m_steps[n]? = some s)
    (hsucc : s.wasSuccessful = true) (hn : n + 1 = t.m_steps.length) :
    onStepFinished t = finalizeSteps true "" t := by
  have h1 : ¬ ((n : Int) = -1) := by omega
  have h2 : (n : Int) = (t.m_steps.length : Int) - 1 := by omega
  have hs1 := stepAt_ok t n s hs
  simp only [onStepFinished, hc, h1, hs1, hsucc, bind, Except.bind, if_false, if_true]
  rw [if_pos h2]

theorem onStepFinished_failed (t : LaunchTask) (n : Nat) (s : LaunchStep)
    (hc : t.currentStep = (n : Int)) (hs : t.m_steps[n]? = some s)
    (hfail : s.wasSuccessful = false) :
    onStepFinished t = finalizeSteps false s.failReason t := by
  have h1 : ¬ ((n : Int) = -1) := by omega
  have hs1 := stepAt_ok t n s hs
  simp [onStepFinished, hc, h1, hs1, hfail, bind, Except.bind]

theorem executeTask_nonempty (steps : List LaunchStep) (h : 0 < steps.length) :
    executeTask (assembled steps) = .ok (midRun steps 0) := by
  have h0 : ¬ (steps.length = 0) := by omega
  have h1 : ¬ (steps = []) := by
    intro hh; simp [hh] at h
  rw [assembled_eq, executeTask]
  simp only [log, h0, if_false]
  rw [onStepFinished_first _ rfl (by simpa using h)]
  simp [log, midRun, startEvents, h1, List.range_succ]

theorem filter_isStart_startEvents (n : Nat) :
    (startEvents n).filter isStart = startEvents n := by
  simp [startEvents, List.filter_eq_self, isStart]

theorem filter_isStart_finalizeEvents (n : Nat) :
    (finalizeEvents n).filter isStart = [] := by
  simp [finalizeEvents, List.filter_eq_nil_iff, isStart]

theorem filter_isStart_outcomeEvents (b : Bool) (r : String) :
    (outcomeEvents b r).filter isStart = [] := by
  cases b <;> simp [outcomeEvents, isStart]

theorem length_startEvents (n : Nat) : (startEvents n).length = n := by
  simp [startEvents]

theorem countStarts_midRun (steps : List LaunchStep) (j : Nat) :
    countStarts (midRun steps j).trace = j + 1 := by
  simp [countStarts, midRun, List.filter_append, filter_isStart_startEvents,
    length_startEvents, isStart, List.filter_cons]

theorem countStarts_endRun (steps : List LaunchStep) (m : Nat) (b : Bool) (r : String) :
    countStarts (endRun steps m b r).trace = m + 1 := by
  simp [countStarts, endRun, List.filter_append, filter_isStart_startEvents,
    filter_isStart_finalizeEvents, filter_isStart_outcomeEvents,
    length_startEvents, isStart, List.filter_cons]

theorem deliver_done (fuel reported : Nat) (t : LaunchTask)
    (h : countStarts t.trace ≤ reported) :
    deliver fuel reported t = .ok (reported, t) := by
  cases fuel with
  | zero => rfl
  | succ fuel =>
    have h1 : ¬ (reported < countStarts t.trace) := by omega
    simp [deliver, h1, pure, Except.pure]

theorem finalizeSteps_midRun (steps : List LaunchStep) (j : Nat) (b : Bool) (r : String)
    (h : j < steps.length) :
    finalizeSteps b r (midRun steps j) = .ok (endRun steps j b r) := by
  rw [finalizeSteps_ok b r (midRun steps j) j rfl h]
  simp [midRun, endRun]

theorem outcomeEvents_true (r : String) : outcomeEvents true r = outcomeEvents true "" := by
  simp [outcomeEvents]

/-- The run from the moment step `j` has been started, the steps before it
having succeeded: it ends after the first step `m ≥ j` that fails, or after
the last step when none fails. -/
theorem deliver_midRun (steps : List LaunchStep) :
    ∀ (fuel j : Nat), j < steps.length → steps.length - j ≤ fuel →
      (∀ i s, i < j → steps[i]? = some s → s.wasSuccessful = true) →
      ∃ m s, j ≤ m ∧ steps[m]? = some s ∧
        (∀ i s2, i < m → steps[i]? = some s2 → s2.wasSuccessful = true) ∧
        (s.wasSuccessful = true → m + 1 = steps.length) ∧
        deliver fuel j (midRun steps j) =
          .ok (m + 1, endRun steps m s.wasSuccessful s.failReason) := by
  intro fuel
  induction fuel with
  | zero => intro j hj hf; omega
  | succ fuel ih =>
    intro j hj hf hpre
    obtain ⟨s, hs, -⟩ := stepAt_lt (midRun steps j) j hj
    have hs2 : steps[j]? = some s := hs
    have hlt : j < countStarts (midRun steps j).trace := by
      rw [countStarts_midRun]; omega
    rw [deliver, if_pos hlt]
    by_cases hsucc : s.wasSuccessful = true
    · by_cases hlast : j + 1 = steps.length
      · refine ⟨j, s, le_refl _, hs2, hpre, fun _ => hlast, ?_⟩
        rw [onStepFinished_last _ j s rfl hs hsucc hlast, finalizeSteps_midRun _ _ _ _ hj]
        simp only [bind, Except.bind]
        rw [deliver_done _ _ _ (by rw [countStarts_endRun])]
        simp [endRun, hsucc, outcomeEvents]
      · have hn : j + 1 < steps.length := by omega
        have hpre2 : ∀ i s2, i < j + 1 → steps[i]? = some s2 → s2.wasSuccessful = true := by
          intro i s2 hi his
          by_cases hij : i = j
          · subst hij
            rw [hs2] at his
            cases his
            exact hsucc
          · exact hpre i s2 (by omega) his
        obtain ⟨m, sm, hjm, hsm, hall, hend, hrun⟩ := ih (j + 1) hn (by omega) hpre2
        refine ⟨m, sm, by omega, hsm, hall, hend, ?_⟩
        rw [onStepFinished_next _ j s rfl hs hsucc hn]
        simp only [bind, Except.bind]
        have hmid : log (.start (j + 1)) { midRun steps j with currentStep := ((j + 1 : Nat) : Int) }
            = midRun steps (j + 1) := by
          simp [log, midRun, startEvents_succ (j + 1)]
        rw [hmid, hrun]
    · have hfail : s.wasSuccessful = false := by
        cases h : s.wasSuccessful
        · rfl
        · exact absurd h hsucc
      refine ⟨j, s, le_refl _, hs2, hpre, fun h => absurd h hsucc, ?_⟩
      rw [onStepFinished_failed _ j s rfl hs hfail, finalizeSteps_midRun _ _ _ _ hj]
      simp only [bind, Except.bind]
      rw [deliver_done _ _ _ (by rw [countStarts_endRun])]
      simp [hfail]

/-- A complete run over a non-empty step sequence: the steps `0..m` are
started in order, `m` being the first step that fails or else the last step,
then finalized in reverse order, and the outcome is reported. -/
theorem run_nonempty (steps : List LaunchStep) (fuel : Nat) (hN : 0 < steps.length)
    (hfuel : steps.length ≤ fuel) :
    ∃ m s, steps[m]? = some s ∧
      (∀ i s2, i < m → steps[i]? = some s2 → s2.wasSuccessful = true) ∧
      (s.wasSuccessful = true → m + 1 = steps.length) ∧
      run steps fuel = .ok (m + 1, endRun steps m s.wasSuccessful s.failReason) := by
  obtain ⟨m, s, -, hs, hall, hend, hrun⟩ :=
    deliver_midRun steps fuel 0 hN (by omega) (fun i s hi => by omega)
  refine ⟨m, s, hs, hall, hend, ?_⟩
  rw [run, executeTask_nonempty steps hN]
  simpa [bind, Except.bind] using hrun

theorem filter_isOutcome_startEvents (n : Nat) :
    (startEvents n).filter isOutcome = [] := by
  simp [startEvents, List.filter_eq_nil_iff, isOutcome]

theorem filter_isOutcome_finalizeEvents (n : Nat) :
    (finalizeEvents n).filter isOutcome = [] := by
  simp [finalizeEvents, List.filter_eq_nil_iff, isOutcome]

theorem filter_isOutcome_outcomeEvents (b : Bool) (r : String) :
    (outcomeEvents b r).filter isOutcome = [if b then .succeeded else .failed r] := by
  cases b <;> simp [outcomeEvents, isOutcome, List.filter_cons]

/-- The trace at the end of a run holds one outcome report. -/
theorem filter_isOutcome_endRun (steps : List LaunchStep) (m : Nat) (b : Bool) (r : String) :
    (endRun steps m b r).trace.filter isOutcome = [if b then .succeeded else .failed r] := by
  simp [endRun, List.filter_append, filter_isOutcome_startEvents,
    filter_isOutcome_finalizeEvents, filter_isOutcome_outcomeEvents, isOutcome,
    List.filter_cons]

/-- In a trace `X ++ Y` where `X` holds no outcome report and `Y` no start,
no step is started after an outcome report. -/
theorem no_start_after_outcome (X Y : List Event)
    (hX : ∀ e ∈ X, isOutcome e = false) (hY : ∀ e ∈ Y, isStart e = false)
    (pre post : List Event) (o : Event) (h : X ++ Y = pre ++ o :: post)
    (ho : isOutcome o = true) : ∀ e ∈ post, isStart e = false := by
  rcases List.append_eq_append_iff.mp h with ⟨a, -, ha⟩ | ⟨c, hc, hc2⟩
  · intro e he
    exact hY e (by rw [ha]; simp [he])
  · cases c with
    | nil =>
      intro e he
      exact hY e (by rw [List.nil_append] at hc2; rw [← hc2]; simp [he])
    | cons x c =>
      rw [List.cons_append] at hc2
      injection hc2 with hx _
      have := hX o (by rw [hc, ← hx]; simp)
      rw [this] at ho
      cases ho

theorem countStarts_append (a b : List Event) :
    countStarts (a ++ b) = countStarts a + countStarts b := by
  simp [countStarts, List.filter_append]

theorem countStarts_finalizeEvents (n : Nat) : countStarts (finalizeEvents n) = 0 := by
  simp [countStarts, filter_isStart_finalizeEvents]

theorem countStarts_outcomeEvents (b : Bool) (r : String) :
    countStarts (outcomeEvents b r) = 0 := by
  simp [countStarts, filter_isStart_outcomeEvents]

/-- What `onStepFinished` does to a task over a non-empty step list whose
`currentStep` is -1 or a valid index: it accesses no step outside the list,
keeps the state and the steps, only adds to the trace, and leaves
`currentStep` a valid index, not smaller than before. -/
theorem onStepFinished_spec (t : LaunchTask) (hN : 0 < t.m_steps.length)
    (h1 : -1 ≤ t.currentStep) (h2 : t.currentStep < (t.m_steps.length : Int)) :
    ∃ t2 new, onStepFinished t = .ok t2 ∧ t2.state = t.state ∧ t2.m_steps = t.m_steps ∧
      t2.trace = t.trace ++ new ∧ 0 ≤ t2.currentStep ∧
      t2.currentStep < (t.m_steps.length : Int) ∧ t.currentStep ≤ t2.currentStep ∧
      (t.currentStep = -1 → 0 < countStarts new) := by
  by_cases hc : t.currentStep = -1
  · refine ⟨_, [Event.start 0], onStepFinished_first t hc hN, rfl, rfl, rfl, ?_, ?_, ?_, ?_⟩
    · simp [log]
    · simp only [log]; omega
    · simp only [log]; omega
    · intro _; simp [countStarts, isStart]
  · obtain ⟨n, hn⟩ : ∃ n : Nat, t.currentStep = (n : Int) :=
      ⟨t.currentStep.toNat, by omega⟩
    have hlt : n < t.m_steps.length := by omega
    obtain ⟨s, hs, -⟩ := stepAt_lt t n hlt
    by_cases hsucc : s.wasSuccessful = true
    · by_cases hlast : n + 1 = t.m_steps.length
      · refine ⟨{ t with trace := t.trace ++ finalizeEvents (n + 1) ++ outcomeEvents true "" },
          finalizeEvents (n + 1) ++ outcomeEvents true "", ?_, rfl, rfl, ?_, ?_, ?_, ?_, ?_⟩
        · rw [onStepFinished_last t n s hn hs hsucc hlast, finalizeSteps_ok true "" t n hn hlt]
        · simp
        · simp only; omega
        · simp only; omega
        · simp only; omega
        · intro h; exact absurd h hc
      · have hnn : n + 1 < t.m_steps.length := by omega
        refine ⟨_, [Event.start (n + 1)], onStepFinished_next t n s hn hs hsucc hnn,
          rfl, rfl, ?_, ?_, ?_, ?_, ?_⟩
        · simp [log]
        · simp only [log]; omega
        · simp only [log]; omega
        · simp only [log]; omega
        · intro h; exact absurd h hc
    · have hfail : s.wasSuccessful = false := by
        cases h : s.wasSuccessful
        · rfl
        · exact absurd h hsucc
      refine ⟨{ t with
          trace := t.trace ++ finalizeEvents (n + 1) ++ outcomeEvents false s.failReason },
        finalizeEvents (n + 1) ++ outcomeEvents false s.failReason,
        ?_, rfl, rfl, ?_, ?_, ?_, ?_, ?_⟩
      · rw [onStepFinished_failed t n s hn hs hfail,
          finalizeSteps_ok false s.failReason t n hn hlt]
      · simp
      · simp only; omega
      · simp only; omega
      · simp only; omega
      · intro h; exact absurd h hc

theorem inv_assembled (steps : List LaunchStep) : Inv steps (assembled steps) := by
  rw [assembled_eq]
  refine ⟨rfl, by simp, ?_, ?_, fun _ => rfl, ?_⟩
  · simp only; omega
  · simp [countStarts, isStart]
  · rintro (h | h) <;> cases h

/-- After `onStepFinished` on a task that agrees with a task satisfying the
invariant in everything but the state and events that start no step, the
invariant holds again, provided the state is not `NotStarted`. -/
theorem inv_onStepFinished (steps : List LaunchStep) (hne : steps ≠ []) (t t0 : LaunchTask)
    (hinv : Inv steps t) (hcs : t0.currentStep = t.currentStep) (hst : t0.m_steps = t.m_steps)
    (htr : countStarts t0.trace = countStarts t.trace) (hstate : t0.state ≠ .NotStarted) :
    ∃ t2, onStepFinished t0 = .ok t2 ∧ Inv steps t2 ∧ t.currentStep ≤ t2.currentStep := by
  obtain ⟨hm, hlo, hhi, hcnt, -, -⟩ := hinv
  have hN : 0 < steps.length := List.length_pos.mpr hne
  obtain ⟨t2, new, hrun, hs2, hm2, htr2, h0, hlt, hmono, hnew⟩ :=
    onStepFinished_spec t0 (by rw [hst, hm]; exact hN) (by rw [hcs]; exact hlo)
      (by rw [hcs, hst, hm]; exact hhi)
  refine ⟨t2, hrun, ⟨by rw [hm2, hst, hm], by omega, by rw [hst, hm] at hlt; exact hlt,
    ?_, ?_, fun _ => h0⟩, by rw [← hcs]; exact hmono⟩
  · constructor
    · intro h; omega
    · intro h
      rw [htr2, countStarts_append, htr] at h
      by_cases hc : t.currentStep = -1
      · have := hnew (by rw [hcs]; exact hc)
        omega
      · have : countStarts t.trace ≠ 0 := fun hz => hc (hcnt.mpr hz)
        omega
  · intro h
    rw [hs2] at h
    exact absurd h hstate

/-- Every permitted operation on a task over a non-empty step list that
satisfies the invariant accesses no step outside the list, keeps the
invariant, and does not lower `currentStep`. -/
theorem inv_applyOp (steps : List LaunchStep) (hne : steps ≠ []) (op : Op) (t : LaunchTask)
    (hinv : Inv steps t) (hp : permitted op t = true) :
    ∃ t2, applyOp op t = .ok t2 ∧ Inv steps t2 ∧ t.currentStep ≤ t2.currentStep := by
  have hN : 0 < steps.length := List.length_pos.mpr hne
  have hinv0 := hinv
  obtain ⟨hm, hlo, hhi, hcnt, hns, hrw⟩ := hinv
  have hidx : 0 ≤ t.currentStep → ∃ n s, t.currentStep = ((n : Nat) : Int) ∧
      ∀ t0 : LaunchTask, t0.m_steps = t.m_steps → stepAt t0 t.currentStep = .ok (n, s) := by
    intro h0
    obtain ⟨n, hn⟩ : ∃ n : Nat, t.currentStep = (n : Int) := ⟨t.currentStep.toNat, by omega⟩
    have hlt : n < t.m_steps.length := by rw [hm]; omega
    obtain ⟨s, hs, -⟩ := stepAt_lt t n hlt
    refine ⟨n, s, hn, fun t0 h0 => ?_⟩
    rw [hn]
    exact stepAt_ok t0 n s (by rw [h0]; exact hs)
  have hstarted : 0 < countStarts t.trace → 0 ≤ t.currentStep := by
    intro h
    by_contra hneg
    have : t.currentStep = -1 := by omega
    have := hcnt.mp this
    omega
  cases op with
  | executeTask =>
    have h0 : ¬ (t.m_steps.length = 0) := by rw [hm]; omega
    simp only [applyOp, executeTask, log, h0, if_false]
    exact inv_onStepFinished steps hne t _ hinv0 rfl rfl
      (by simp [countStarts_append, countStarts, isStart]) (by simp)
  | onStepFinished =>
    have hpos : 0 < countStarts t.trace := by simpa [permitted] using hp
    have hst : t.state ≠ .NotStarted := by
      intro h
      have := hcnt.mp (hns h)
      omega
    exact inv_onStepFinished steps hne t t hinv0 rfl rfl rfl hst
  | onReadyForLaunch =>
    have hpos : 0 < countStarts t.trace := by simpa [permitted] using hp
    refine ⟨_, rfl, ⟨hm, hlo, hhi, ?_, ?_, fun _ => hstarted hpos⟩, le_refl _⟩
    · simp only [onReadyForLaunch, log, countStarts_append]
      simpa [countStarts, isStart] using hcnt
    · intro h; cases h
  | onProgressReportingRequested =>
    have hpos : 0 < countStarts t.trace := by simpa [permitted] using hp
    obtain ⟨n, s, hn, hs⟩ := hidx (hstarted hpos)
    refine ⟨log (.requestProgress n) { t with state := .Waiting }, ?_,
      ⟨hm, hlo, hhi, ?_, ?_, fun _ => hstarted hpos⟩, le_refl _⟩
    · simp [applyOp, onProgressReportingRequested, hs { t with state := .Waiting } rfl, bind,
        Except.bind, pure, Except.pure]
    · simp only [log, countStarts_append]
      simpa [countStarts, isStart] using hcnt
    · intro h; cases h
  | proceed =>
    by_cases hw : t.state = .Waiting
    · obtain ⟨n, s, hn, hs⟩ := hidx (hrw (Or.inr hw))
      refine ⟨log (.proceed n) t, ?_, ⟨hm, hlo, hhi, ?_, hns, hrw⟩, le_refl _⟩
      · simp [applyOp, proceed, hw, hs t rfl, bind, Except.bind, pure, Except.pure]
      · simp only [log, countStarts_append]
        simpa [countStarts, isStart] using hcnt
    · exact ⟨t, by simp [applyOp, proceed, hw, pure, Except.pure], hinv0, le_refl _⟩
  | abort =>
    have hrun : t.state = .Running ∨ t.state = .Waiting →
        ∃ t2, applyOp .abort t = .ok t2 ∧ Inv steps t2 ∧ t.currentStep ≤ t2.currentStep := by
      intro hst
      obtain ⟨n, s, hn, hs⟩ := hidx (hrw hst)
      have hcnt2 : t.currentStep = -1 ↔ countStarts (t.trace ++ [Event.abort n]) = 0 := by
        rw [countStarts_append]
        simpa [countStarts, isStart] using hcnt
      by_cases hcan : s.canAbort = true
      · by_cases hab : s.abort = true
        · refine ⟨{ log (.abort n) t with state := .Aborted }, ?_,
            ⟨hm, hlo, hhi, hcnt2, ?_, ?_⟩, le_refl _⟩
          · rcases hst with h | h <;>
              simp [applyOp, abort, h, hs t rfl, hcan, hab, bind, Except.bind, pure,
                Except.pure]
          · intro h; cases h
          · rintro (h | h) <;> cases h
        · refine ⟨log (.abort n) t, ?_, ⟨hm, hlo, hhi, hcnt2, hns, hrw⟩, le_refl _⟩
          rcases hst with h | h <;>
            simp [applyOp, abort, h, hs t rfl, hcan, hab, bind, Except.bind, pure,
              Except.pure]
      · refine ⟨t, ?_, hinv0, le_refl _⟩
        rcases hst with h | h <;>
          simp [applyOp, abort, h, hs t rfl, hcan, bind, Except.bind, pure, Except.pure]
    cases hstate : t.state with
    | Running => exact hrun (Or.inl hstate)
    | Waiting => exact hrun (Or.inr hstate)
    | NotStarted =>
      refine ⟨emitFailed "Aborted" { t with state := .Aborted }, ?_,
        ⟨hm, hlo, hhi, ?_, ?_, ?_⟩, le_refl _⟩
      · simp [applyOp, abort, hstate, bind, Except.bind, pure, Except.pure]
      · simp only [emitFailed, log, countStarts_append]
        simpa [countStarts, isStart] using hcnt
      · intro h; cases h
      · rintro (h | h) <;> cases h
    | Failed =>
      exact ⟨t, by simp [applyOp, abort, hstate, bind, Except.bind, pure, Except.pure],
        hinv0, le_refl _⟩
    | Aborted =>
      exact ⟨t, by simp [applyOp, abort, hstate, bind, Except.bind, pure, Except.pure],
        hinv0, le_refl _⟩
    | Finished =>
      exact ⟨t, by simp [applyOp, abort, hstate, bind, Except.bind, pure, Except.pure],
        hinv0, le_refl _⟩

/-- The invariant holds along every path of permitted operations, and
`currentStep` never decreases along it. -/
theorem inv_reach (steps : List LaunchStep) (hne : steps ≠ []) (t1 t2 : LaunchTask)
    (hinv : Inv steps t1) (hr : Reach t1 t2) :
    Inv steps t2 ∧ t1.currentStep ≤ t2.currentStep := by
  induction hr with
  | refl => exact ⟨hinv, le_refl _⟩
  | step op _ hp hop ih =>
    obtain ⟨hi, hle⟩ := ih
    obtain ⟨t4, h4, hi4, hle4⟩ := inv_applyOp steps hne op _ hi hp
    rw [hop] at h4
    cases h4
    exact ⟨hi4, le_trans hle hle4⟩

/-- Over a non-empty step list: while the state is `NotStarted`,
`currentStep` is -1; from the moment the state is `Running`, `currentStep`
stays a valid index; and no permitted operation accesses a step outside the
list. -/
theorem currentStep_valid_nonempty (steps : List LaunchStep) (hne : steps ≠ [])
    (t1 t2 : LaunchTask) (h1 : Reach (assembled steps) t1) (h2 : Reach t1 t2) :
    (t1.state = .NotStarted → t1.currentStep = -1) ∧
    (t1.state = .Running → 0 ≤ t2.currentStep ∧ t2.currentStep < (steps.length : Int)) ∧
    (∀ op, permitted op t1 = true → ∃ t3, applyOp op t1 = .ok t3) := by
  obtain ⟨hi1, -⟩ := inv_reach steps hne _ _ (inv_assembled steps) h1
  obtain ⟨hi2, hle⟩ := inv_reach steps hne _ _ hi1 h2
  refine ⟨hi1.2.2.2.2.1, ?_, ?_⟩
  · intro hrun
    have := hi1.2.2.2.2.2 (Or.inl hrun)
    exact ⟨by omega, hi2.2.2.1⟩
  · intro op hp
    obtain ⟨t3, h3, -, -⟩ := inv_applyOp steps hne op t1 hi1 hp
    exact ⟨t3, h3⟩

end LaunchTask

/-! ## The claims on the step pipeline -/

open LaunchTask

/-- C1 (the code on the empty step sequence): `executeTask` reports success
once and no failure, but its empty-list branch does not return: the state is
then set to `Running`, `onStepFinished` raises `currentStep` to 0 and
evaluates `m_steps[0]` on the empty list. -/
theorem executeTask_empty_evaluates_step_zero :
    executeTask (assembled []) =
      .error
        { index := 0,
          task :=
            { state := .Running, currentStep := 0, m_steps := [],
              trace := [.setRunning true, .setCrashed false, .setRunning false,
                .succeeded] } } := by
  rfl

/-- C2: a run over a non-empty step sequence, in which every started step
reports its completion once, ends with every started step having reported,
holds exactly one outcome report (`succeeded` or `failed`) in its trace, and
no step is started after that report. -/
theorem run_reports_outcome_once (steps : List LaunchStep) (fuel : Nat)
    (hne : steps ≠ []) (hfuel : steps.length ≤ fuel) :
    ∃ n t, run steps fuel = .ok (n, t) ∧ n = countStarts t.trace ∧
      (t.trace.filter isOutcome).length = 1 ∧
      ∀ pre post o, t.trace = pre ++ o :: post → isOutcome o = true →
        ∀ e ∈ post, isStart e = false := by
  have hN : 0 < steps.length := List.length_pos.mpr hne
  obtain ⟨m, s, -, -, -, hrun⟩ := run_nonempty steps fuel hN hfuel
  refine ⟨m + 1, _, hrun, (countStarts_endRun _ _ _ _).symm, ?_, ?_⟩
  · rw [filter_isOutcome_endRun]; rfl
  · intro pre post o htr ho
    refine no_start_after_outcome
      ([Event.setRunning true, Event.setCrashed false] ++ startEvents (m + 1)
        ++ finalizeEvents (m + 1))
      (outcomeEvents s.wasSuccessful s.failReason) ?_ ?_ pre post o htr ho
    · intro e he
      simp only [List.mem_append, List.mem_cons, List.mem_singleton, startEvents,
        finalizeEvents, List.mem_map, List.not_mem_nil, or_false] at he
      rcases he with ((rfl | rfl) | ⟨i, -, rfl⟩) | ⟨i, -, rfl⟩ <;> rfl
    · intro e he
      cases hb : s.wasSuccessful <;> rw [hb] at he <;>
        simp only [outcomeEvents, List.mem_cons, List.mem_singleton, if_true, if_false,
          List.not_mem_nil, or_false, Bool.false_eq_true] at he
      · rcases he with rfl | rfl | rfl <;> rfl
      · rcases he with rfl | rfl <;> rfl

/-- Witness of C2: two steps, the second failing. -/
theorem run_reports_outcome_once_witness :
    ([⟨true, "", true, true⟩, ⟨false, "Game crashed.", true, true⟩] : List LaunchStep) ≠ [] ∧
    ([⟨true, "", true, true⟩, ⟨false, "Game crashed.", true, true⟩] : List LaunchStep).length ≤ 2 ∧
    ∃ n t, run [⟨true, "", true, true⟩, ⟨false, "Game crashed.", true, true⟩] 2 = .ok (n, t) ∧
      n = countStarts t.trace ∧
      (t.trace.filter isOutcome).length = 1 ∧
      ∀ pre post o, t.trace = pre ++ o :: post → isOutcome o = true →
        ∀ e ∈ post, isStart e = false :=
  ⟨by decide, by decide, run_reports_outcome_once _ 2 (by decide) (by decide)⟩

/-- C3: with `currentStep = c` a valid index, `finalizeSteps` calls
`finalize()` on the steps `c, c-1, ..., 0`, each once, in strictly decreasing
order and on no step above `c`, and only then emits the outcome; the state and
`currentStep` are left as they were. -/
theorem finalizeSteps_reverse_order (t : LaunchTask) (c : Nat) (successful : Bool)
    (error : String) (hc : t.currentStep = (c : Int)) (hN : c < t.m_steps.length) :
    finalizeSteps successful error t =
        .ok { t with
          trace := t.trace ++ ((List.range (c + 1)).reverse.map Event.finalize) ++
            (if successful then [.setRunning false, .succeeded]
             else [.setRunning false, .setCrashed true, .failed error]) } ∧
      (List.range (c + 1)).reverse.Pairwise (fun a b => b < a) ∧
      (List.range (c + 1)).reverse.head? = some c ∧
      ∀ i, i ∈ (List.range (c + 1)).reverse ↔ i ≤ c := by
  refine ⟨?_, ?_, ?_, ?_⟩
  · rw [finalizeSteps_ok successful error t c hc hN]
    rfl
  · rw [List.pairwise_reverse]
    exact List.pairwise_lt_range (c + 1)
  · simp [List.range_succ]
  · intro i
    simp [Nat.lt_succ_iff]

/-- Witness of C3: three steps, the second being the current one. -/
theorem finalizeSteps_reverse_order_witness :
    (midRun [⟨true, "", true, true⟩, ⟨false, "Game crashed.", true, true⟩,
        ⟨true, "", true, true⟩] 1).currentStep = ((1 : Nat) : Int) ∧
    finalizeSteps false "Game crashed."
        (midRun [⟨true, "", true, true⟩, ⟨false, "Game crashed.", true, true⟩,
          ⟨true, "", true, true⟩] 1) =
      .ok { midRun [⟨true, "", true, true⟩, ⟨false, "Game crashed.", true, true⟩,
          ⟨true, "", true, true⟩] 1 with
        trace := [.setRunning true, .setCrashed false, .start 0, .start 1, .finalize 1,
          .finalize 0, .setRunning false, .setCrashed true, .failed "Game crashed."] } :=
  ⟨rfl, (finalizeSteps_reverse_order
    (midRun [⟨true, "", true, true⟩, ⟨false, "Game crashed.", true, true⟩,
      ⟨true, "", true, true⟩] 1) 1 false "Game crashed." rfl (by decide)).1⟩

/-- C4: when the steps before `k` succeed and step `k`, not the last one,
fails with reason `R = sk.failReason`, the run starts the steps `0..k`,
finalizes `k, k-1, ..., 0`, and reports `failed` with exactly that reason;
no step above `k` is started or finalized. -/
theorem run_fails_at_step (steps : List LaunchStep) (k : Nat) (sk : LaunchStep) (fuel : Nat)
    (hk : k + 1 < steps.length)
    (hpre : ∀ i s, i < k → steps[i]? = some s → s.wasSuccessful = true)
    (hsk : steps[k]? = some sk) (hfail : sk.wasSuccessful = false)
    (hfuel : steps.length ≤ fuel) :
    ∃ t, run steps fuel = .ok (k + 1, t) ∧
      t.trace = [.setRunning true, .setCrashed false] ++ (List.range (k + 1)).map Event.start
        ++ (List.range (k + 1)).reverse.map Event.finalize
        ++ [.setRunning false, .setCrashed true, .failed sk.failReason] ∧
      t.trace.filter isOutcome = [.failed sk.failReason] ∧
      ∀ j, k < j → Event.start j ∉ t.trace ∧ Event.finalize j ∉ t.trace := by
  obtain ⟨m, s, hs, hall, hend, hrun⟩ := run_nonempty steps fuel (by omega) hfuel
  have hmk : m = k := by
    rcases Nat.lt_trichotomy m k with h | h | h
    · have h1 := hpre m s h hs
      have := hend h1
      omega
    · exact h
    · have := hall k sk h hsk
      rw [hfail] at this
      cases this
  subst hmk
  rw [hsk] at hs
  cases hs
  have htr : (endRun steps m sk.wasSuccessful sk.failReason).trace =
      [.setRunning true, .setCrashed false] ++ (List.range (m + 1)).map Event.start
        ++ (List.range (m + 1)).reverse.map Event.finalize
        ++ [.setRunning false, .setCrashed true, .failed sk.failReason] := by
    simp [endRun, hfail, outcomeEvents, startEvents, finalizeEvents]
  refine ⟨_, hrun, htr, ?_, ?_⟩
  · rw [filter_isOutcome_endRun, hfail]; rfl
  · intro j hj
    rw [htr]
    constructor
    · simp only [List.mem_append, List.mem_cons, List.mem_singleton, List.mem_map,
        List.mem_range, List.mem_reverse, List.not_mem_nil, or_false, not_or]
      refine ⟨⟨⟨⟨by simp, by simp⟩, ?_⟩, by simp⟩, by simp, by simp, by simp⟩
      rintro ⟨i, hi, h⟩
      injection h with h
      omega
    · simp only [List.mem_append, List.mem_cons, List.mem_singleton, List.mem_map,
        List.mem_range, List.mem_reverse, List.not_mem_nil, or_false, not_or]
      refine ⟨⟨⟨⟨by simp, by simp⟩, by simp⟩, ?_⟩, by simp, by simp, by simp⟩
      rintro ⟨i, hi, h⟩
      injection h with h
      omega

/-- Witness of C4: three steps, the second failing. -/
theorem run_fails_at_step_witness :
    ∃ t, run [⟨true, "", true, true⟩, ⟨false, "Game crashed.", true, true⟩,
        ⟨true, "", true, true⟩] 3 = .ok (2, t) ∧
      t.trace = [.setRunning true, .setCrashed false] ++ (List.range 2).map Event.start
        ++ (List.range 2).reverse.map Event.finalize
        ++ [.setRunning false, .setCrashed true, .failed "Game crashed."] ∧
      t.trace.filter isOutcome = [.failed "Game crashed."] ∧
      ∀ j, 1 < j → Event.start j ∉ t.trace ∧ Event.finalize j ∉ t.trace :=
  run_fails_at_step
    [⟨true, "", true, true⟩, ⟨false, "Game crashed.", true, true⟩, ⟨true, "", true, true⟩]
    1 ⟨false, "Game crashed.", true, true⟩ 3 (by decide)
    (by
      intro i s hi hs
      have h0 : i = 0 := by omega
      subst h0
      simp at hs
      rw [← hs])
    rfl rfl (by decide)

/-- C5: over a non-empty step sequence, `executeTask` starts step 0 and
nothing else; handling the completion report of step `n`, `onStepFinished`
starts step `n + 1` when step `n` was successful and is not the last one, and
starts nothing otherwise; and in a whole run the started steps are exactly
`0, 1, ..., m` in increasing order, each once. -/
theorem steps_start_sequentially (steps : List LaunchStep) (hne : steps ≠ []) :
    (∃ t, executeTask (assembled steps) = .ok t ∧
      t.trace.filter isStart = [Event.start 0]) ∧
    (∀ (t : LaunchTask) (n : Nat) (s : LaunchStep), t.currentStep = (n : Int) →
      t.m_steps[n]? = some s →
      ∃ t2 new, onStepFinished t = .ok t2 ∧ t2.trace = t.trace ++ new ∧
        new.filter isStart =
          if s.wasSuccessful = true ∧ n + 1 < t.m_steps.length then [Event.start (n + 1)]
          else []) ∧
    (∀ fuel, steps.length ≤ fuel →
      ∃ m t, m < steps.length ∧ run steps fuel = .ok (m + 1, t) ∧
        t.trace.filter isStart = (List.range (m + 1)).map Event.start) := by
  have hN : 0 < steps.length := List.length_pos.mpr hne
  refine ⟨?_, ?_, ?_⟩
  · refine ⟨_, executeTask_nonempty steps hN, ?_⟩
    simp [midRun, startEvents, List.range_succ, List.filter_cons, isStart]
  · intro t n s hc hs
    have hlt : n < t.m_steps.length := by
      rcases Nat.lt_or_ge n t.m_steps.length with h | h
      · exact h
      · rw [List.getElem?_eq_none h] at hs
        cases hs
    by_cases hsucc : s.wasSuccessful = true
    · by_cases hlast : n + 1 = t.m_steps.length
      · have hno : ¬ (n + 1 < t.m_steps.length) := by omega
        refine ⟨{ t with trace := t.trace ++ finalizeEvents (n + 1) ++ outcomeEvents true "" },
          finalizeEvents (n + 1) ++ outcomeEvents true "", ?_, ?_, ?_⟩
        · rw [onStepFinished_last t n s hc hs hsucc hlast,
            finalizeSteps_ok true "" t n hc hlt]
        · simp
        · simp [hno, List.filter_append, filter_isStart_finalizeEvents,
            filter_isStart_outcomeEvents]
      · have hn : n + 1 < t.m_steps.length := by omega
        refine ⟨_, [Event.start (n + 1)], onStepFinished_next t n s hc hs hsucc hn, ?_, ?_⟩
        · simp [log]
        · simp [hsucc, hn, List.filter_cons, isStart]
    · have hfail : s.wasSuccessful = false := by
        cases h : s.wasSuccessful
        · rfl
        · exact absurd h hsucc
      refine ⟨{ t with
          trace := t.trace ++ finalizeEvents (n + 1) ++ outcomeEvents false s.failReason },
        finalizeEvents (n + 1) ++ outcomeEvents false s.failReason, ?_, ?_, ?_⟩
      · rw [onStepFinished_failed t n s hc hs hfail,
          finalizeSteps_ok false s.failReason t n hc hlt]
      · simp
      · simp [hfail, List.filter_append, filter_isStart_finalizeEvents,
          filter_isStart_outcomeEvents]
  · intro fuel hfuel
    obtain ⟨m, s, hs, -, -, hrun⟩ := run_nonempty steps fuel hN hfuel
    have hm : m < steps.length := by
      rcases Nat.lt_or_ge m steps.length with h | h
      · exact h
      · rw [List.getElem?_eq_none h] at hs
        cases hs
    refine ⟨m, _, hm, hrun, ?_⟩
    simp [endRun, List.filter_append, filter_isStart_startEvents,
      filter_isStart_finalizeEvents, filter_isStart_outcomeEvents, isStart,
      List.filter_cons, startEvents]

/-- Witness of C5: two steps. -/
theorem steps_start_sequentially_witness :
    ([⟨true, "", true, true⟩, ⟨false, "Game crashed.", true, true⟩] : List LaunchStep) ≠ [] ∧
    ∃ t, executeTask
        (assembled [⟨true, "", true, true⟩, ⟨false, "Game crashed.", true, true⟩]) = .ok t ∧
      t.trace.filter isStart = [Event.start 0] :=
  ⟨by decide, (steps_start_sequentially
    [⟨true, "", true, true⟩, ⟨false, "Game crashed.", true, true⟩] (by decide)).1⟩

/-- C6 (the code on a one-step pipeline): `finalizeSteps` reports the outcome
without assigning `state`.  After the single step succeeded the task has
reported `succeeded` and its state is still `Running`, not `Finished`; after
the single step failed it has reported `failed` and its state is still
`Running`, not `Failed`. -/
theorem run_state_after_outcome :
    (∃ t, run [⟨true, "", true, true⟩] 1 = .ok (1, t) ∧
      t.trace.filter isOutcome = [.succeeded] ∧ t.state = .Running) ∧
    (∃ t, run [⟨false, "Game crashed.", true, true⟩] 1 = .ok (1, t) ∧
      t.trace.filter isOutcome = [.failed "Game crashed."] ∧ t.state = .Running) :=
  ⟨⟨_, rfl, rfl, rfl⟩, ⟨_, rfl, rfl, rfl⟩⟩

/-- C7: in state `Running` or `Waiting`, when the current step answers
`canAbort() = false`, `abort()` returns false and leaves the task as it was:
same state, same `currentStep`, and nothing added to the trace (no call of
the step's `abort()`, no outcome). -/
theorem abort_rejected (t : LaunchTask) (n : Nat) (s : LaunchStep)
    (hstate : t.state = .Running ∨ t.state = .Waiting)
    (hc : t.currentStep = (n : Int)) (hs : t.m_steps[n]? = some s)
    (hno : s.canAbort = false) :
    abort t = .ok (false, t) := by
  have h1 : stepAt t t.currentStep = .ok (n, s) := by rw [hc]; exact stepAt_ok t n s hs
  rcases hstate with h | h <;>
    simp [abort, h, h1, hno, bind, Except.bind, pure, Except.pure]

/-- Witness of C7: a running task whose only step cannot be aborted. -/
theorem abort_rejected_witness :
    ((midRun [⟨true, "", false, true⟩] 0).state = .Running ∨
      (midRun [⟨true, "", false, true⟩] 0).state = .Waiting) ∧
    abort (midRun [⟨true, "", false, true⟩] 0) =
      .ok (false, midRun [⟨true, "", false, true⟩] 0) :=
  ⟨Or.inl rfl,
    abort_rejected (midRun [⟨true, "", false, true⟩] 0) 0 ⟨true, "", false, true⟩
      (Or.inl rfl) rfl rfl rfl⟩

/-- C8 as stated fails: a task is executed over one abortable step that
honours the abort.  `abort()` returns true and sets the state to `Aborted`,
but reports no outcome; when the aborted step then reports its completion,
the one outcome reported is `failed` with the reason of the step, not with
the reason "Aborted". -/
theorem abort_running_reports_no_Aborted_reason :
    ∃ t1 t2 t3,
      executeTask (assembled [⟨false, "Game crashed.", true, true⟩]) = .ok t1 ∧
      t1.state = .Running ∧
      abort t1 = .ok (true, t2) ∧ t2.state = .Aborted ∧
      t2.trace.filter isOutcome = [] ∧
      onStepFinished t2 = .ok t3 ∧
      t3.trace.filter isOutcome = [.failed "Game crashed."] ∧
      Event.failed "Aborted" ∉ t3.trace :=
  ⟨_, _, _, rfl, rfl, rfl, rfl, rfl, rfl, rfl, by decide⟩

/-- C8 as amended: in state `Running` or `Waiting`, when the current step is
abortable and honours the abort, `abort()` calls the step's `abort()` once,
returns true and sets the state to `Aborted`, reporting no outcome itself;
when the aborted step then reports its completion as a failure, the task
finalizes and reports `failed` with the failure reason of that step. -/
theorem abort_honoured (t : LaunchTask) (n : Nat) (s : LaunchStep)
    (hstate : t.state = .Running ∨ t.state = .Waiting)
    (hc : t.currentStep = (n : Int)) (hs : t.m_steps[n]? = some s)
    (hcan : s.canAbort = true) (habort : s.abort = true) :
    abort t = .ok (true, { t with state := .Aborted, trace := t.trace ++ [.abort n] }) ∧
    (s.wasSuccessful = false →
      onStepFinished { t with state := .Aborted, trace := t.trace ++ [.abort n] } =
        .ok { t with
          state := .Aborted,
          trace := t.trace ++ [.abort n] ++ (List.range (n + 1)).reverse.map Event.finalize
            ++ [.setRunning false, .setCrashed true, .failed s.failReason] }) := by
  have h1 : stepAt t t.currentStep = .ok (n, s) := by rw [hc]; exact stepAt_ok t n s hs
  have hlt : n < t.m_steps.length := by
    rcases Nat.lt_or_ge n t.m_steps.length with h | h
    · exact h
    · rw [List.getElem?_eq_none h] at hs
      cases hs
  constructor
  · rcases hstate with h | h <;>
      simp [abort, h, h1, hcan, habort, bind, Except.bind, pure, Except.pure, log]
  · intro hfail
    rw [onStepFinished_failed
        { t with state := .Aborted, trace := t.trace ++ [.abort n] } n s hc hs hfail,
      finalizeSteps_ok false s.failReason
        { t with state := .Aborted, trace := t.trace ++ [.abort n] } n hc hlt]
    simp [finalizeEvents, outcomeEvents]

/-- Witness of C8 as amended: a running task whose only step honours the
abort and then reports a failure. -/
theorem abort_honoured_witness :
    ((midRun [⟨false, "Game crashed.", true, true⟩] 0).state = .Running ∨
      (midRun [⟨false, "Game crashed.", true, true⟩] 0).state = .Waiting) ∧
    abort (midRun [⟨false, "Game crashed.", true, true⟩] 0) =
      .ok (true, { midRun [⟨false, "Game crashed.", true, true⟩] 0 with
        state := .Aborted,
        trace := [.setRunning true, .setCrashed false, .start 0, .abort 0] }) :=
  ⟨Or.inl rfl,
    (abort_honoured (midRun [⟨false, "Game crashed.", true, true⟩] 0) 0
      ⟨false, "Game crashed.", true, true⟩ (Or.inl rfl) rfl rfl rfl rfl).1⟩

/-- C9: `canAbort()` returns true in state `NotStarted`, false in each of
`Finished`, `Failed` and `Aborted` (whatever `currentStep` is), and in
`Running` or `Waiting` the answer of the current step to `canAbort()`. -/
theorem canAbort_by_state (cs : Int) (n : Nat) (steps : List LaunchStep) (tr : List Event)
    (s : LaunchStep) (hs : steps[n]? = some s) :
    canAbort { state := .NotStarted, currentStep := cs, m_steps := steps, trace := tr }
        = .ok true ∧
      canAbort { state := .Finished, currentStep := cs, m_steps := steps, trace := tr }
        = .ok false ∧
      canAbort { state := .Failed, currentStep := cs, m_steps := steps, trace := tr }
        = .ok false ∧
      canAbort { state := .Aborted, currentStep := cs, m_steps := steps, trace := tr }
        = .ok false ∧
      canAbort { state := .Running, currentStep := (n : Int), m_steps := steps, trace := tr }
        = .ok s.canAbort ∧
      canAbort { state := .Waiting, currentStep := (n : Int), m_steps := steps, trace := tr }
        = .ok s.canAbort := by
  refine ⟨rfl, rfl, rfl, rfl, ?_, ?_⟩
  · have h1 := stepAt_ok
      { state := .Running, currentStep := (n : Int), m_steps := steps, trace := tr } n s hs
    simp [canAbort, h1, bind, Except.bind, pure, Except.pure]
  · have h1 := stepAt_ok
      { state := .Waiting, currentStep := (n : Int), m_steps := steps, trace := tr } n s hs
    simp [canAbort, h1, bind, Except.bind, pure, Except.pure]

/-- Witness of C9: the second of two steps, which cannot be aborted. -/
theorem canAbort_by_state_witness :
    ([⟨true, "", true, true⟩, ⟨true, "", false, true⟩] : List LaunchStep)[1]? =
        some ⟨true, "", false, true⟩ ∧
      canAbort { state := .NotStarted, currentStep := -1,
                 m_steps := [⟨true, "", true, true⟩, ⟨true, "", false, true⟩],
                 trace := [] } = .ok true ∧
      canAbort { state := .Running, currentStep := ((1 : Nat) : Int),
                 m_steps := [⟨true, "", true, true⟩, ⟨true, "", false, true⟩],
                 trace := [] } = .ok false :=
  ⟨rfl,
    (canAbort_by_state (-1) 1 [⟨true, "", true, true⟩, ⟨true, "", false, true⟩] []
      ⟨true, "", false, true⟩ rfl).1,
    (canAbort_by_state (-1) 1 [⟨true, "", true, true⟩, ⟨true, "", false, true⟩] []
      ⟨true, "", false, true⟩ rfl).2.2.2.2.1⟩

/-- C10 (the code on the empty step sequence): `executeTask` sets the state
to `Running` and `onStepFinished` raises `currentStep` from -1 to 0 while
there is no step, so `currentStep` is not below the number of steps when
`m_steps[0]` is evaluated. -/
theorem executeTask_empty_currentStep_out_of_range :
    ∃ f, executeTask (assembled []) = .error f ∧
      (assembled []).state = .NotStarted ∧ (assembled []).currentStep = -1 ∧
      f.task.state = .Running ∧ f.task.currentStep = 0 ∧ f.task.m_steps.length = 0 ∧
      ¬ (0 ≤ f.task.currentStep ∧ f.task.currentStep < (f.task.m_steps.length : Int)) :=
  ⟨_, rfl, rfl, rfl, rfl, rfl, rfl, by decide⟩

/-! ## Lemmas on texts and messages -/

namespace QString

theorem startsWith_iff (p l : List Char) : startsWith p l = true ↔ p <+: l := by
  induction p generalizing l with
  | nil => simp [startsWith]
  | cons a p ih =>
    cases l with
    | nil => simp [startsWith]
    | cons c cs =>
      simp [startsWith, ih, List.cons_prefix_cons]

theorem startsWith_append (p rest : List Char) : startsWith p (p ++ rest) = true :=
  (startsWith_iff p (p ++ rest)).mpr (List.prefix_append p rest)

theorem replaceScan_skip (before after : List Char) (n : Nat) (l : List Char) :
    replaceScan before after n l = replaceScan before after 0 (l.drop n) := by
  induction n generalizing l with
  | zero => simp
  | succ n ih =>
    cases l with
    | nil => simp [replaceScan]
    | cons c cs => simp [replaceScan, ih]

theorem replaceScan_occurrence (before after rest : List Char) (h : before ≠ []) :
    replaceScan before after 0 (before ++ rest) = after ++ replaceScan before after 0 rest := by
  cases before with
  | nil => exact absurd rfl h
  | cons b bs =>
    have hs : startsWith (b :: bs) (b :: (bs ++ rest)) = true :=
      startsWith_append (b :: bs) rest
    rw [List.cons_append, replaceScan, if_pos hs, replaceScan_skip]
    simp

theorem replaceScan_other (before after : List Char) (c : Char) (cs : List Char)
    (h : startsWith before (c :: cs) = false) :
    replaceScan before after 0 (c :: cs) = c :: replaceScan before after 0 cs := by
  rw [replaceScan]
  simp [h]

end QString

namespace LaunchTask

open QString

theorem replacedLeftToRight_unique (key value : List Char) (hkey : key ≠ [])
    (l out : List Char) (h : ReplacedLeftToRight key value l out) :
    replaceScan key value 0 l = out := by
  induction h with
  | done => simp [replaceScan]
  | occurrence rest out _ ih => rw [replaceScan_occurrence _ _ _ hkey, ih]
  | other c rest out hno _ ih =>
    have : startsWith key (c :: rest) = false := by
      cases hsw : startsWith key (c :: rest)
      · rfl
      · exact absurd ((startsWith_iff _ _).mp hsw) hno
    rw [replaceScan_other _ _ _ _ this, ih]

theorem replacedLeftToRight_replaceScan (key value : List Char) (hkey : key ≠ []) :
    ∀ (n : Nat) (l : List Char), l.length ≤ n →
      ReplacedLeftToRight key value l (replaceScan key value 0 l) := by
  intro n
  induction n with
  | zero =>
    intro l hl
    have : l = [] := List.length_eq_zero.mp (by omega)
    subst this
    simpa [replaceScan] using ReplacedLeftToRight.done
  | succ n ih =>
    intro l hl
    cases l with
    | nil => simpa [replaceScan] using ReplacedLeftToRight.done
    | cons c cs =>
      cases hsw : startsWith key (c :: cs)
      · rw [replaceScan_other _ _ _ _ hsw]
        refine ReplacedLeftToRight.other c cs _ ?_ (ih cs (by simpa using hl))
        intro hp
        rw [(startsWith_iff _ _).mpr hp] at hsw
        cases hsw
      · obtain ⟨rest, hrest⟩ := (startsWith_iff _ _).mp hsw
        have hlen : rest.length ≤ n := by
          have h1 : (key ++ rest).length = (c :: cs).length := by rw [hrest]
          have h2 : 0 < key.length := List.length_pos.mpr hkey
          simp only [List.length_append, List.length_cons] at h1 hl
          omega
        rw [← hrest, replaceScan_occurrence _ _ _ hkey]
        exact ReplacedLeftToRight.occurrence rest _ (ih rest hlen)

theorem data_ne_nil (s : String) (h : s ≠ "") : s.data ≠ [] := by
  intro hd
  apply h
  cases s
  simp only at hd
  rw [hd]

end LaunchTask

namespace QString

theorem fields_no_sep (sep : Char) (l : List Char) (h : sep ∉ l) : fields sep l = [l] := by
  induction l with
  | nil => rfl
  | cons c cs ih =>
    have hc : ¬ (c = sep) := fun e => h (by simp [e])
    have hcs : sep ∉ cs := fun e => h (by simp [e])
    simp [fields, hc, ih hcs]

theorem fields_append_sep (sep : Char) (a b : List Char) (h : sep ∉ a) :
    fields sep (a ++ sep :: b) = a :: fields sep b := by
  induction a with
  | nil => simp [fields]
  | cons c cs ih =>
    have hc : ¬ (c = sep) := fun e => h (by simp [e])
    have hcs : sep ∉ cs := fun e => h (by simp [e])
    simp [fields, hc, ih hcs]

/-- The section from field `i` to field `i` is that field. -/
theorem section_field (s : String) (sep : Char) (fs : List (List Char)) (i : Nat)
    (f : List Char) (hfs : fields sep s.data = fs) (hf : fs[i]? = some f) :
    section_ s sep (i : Int) (i : Int) = ⟨f⟩ := by
  have hlt : i < fs.length := by
    rcases Nat.lt_or_ge i fs.length with h | h
    · exact h
    · rw [List.getElem?_eq_none h] at hf
      cases hf
  have h1 : ¬ ((i : Int) < 0) := by omega
  have h3 : (fs.drop i).take (i + 1 - i) = [f] := by
    have h4 : i + 1 - i = 1 := by omega
    rw [h4, List.drop_eq_getElem_cons hlt]
    have h5 : fs[i] = f := by
      rw [List.getElem?_eq_getElem hlt] at hf
      exact Option.some.inj hf
    simp [h5]
  have h6 : ¬ ((i : Int) ≥ (fs.length : Int) ∨ False ∨ (i : Int) > (i : Int)) := by
    rintro (h | h | h)
    · omega
    · exact h
    · omega
  simp only [section_, hfs, h1, if_false, Int.toNat_ofNat, h3, join]
  rw [if_neg h6]

/-- The section from field `i` to field `i` is empty when there are not so
many fields. -/
theorem section_field_none (s : String) (sep : Char) (fs : List (List Char)) (i : Nat)
    (hfs : fields sep s.data = fs) (h : fs.length ≤ i) :
    section_ s sep (i : Int) (i : Int) = "" := by
  have h1 : ¬ ((i : Int) < 0) := by omega
  have h6 : (i : Int) ≥ (fs.length : Int) ∨ False ∨ (i : Int) > (i : Int) := by
    left; omega
  simp only [section_, hfs, h1, if_false]
  rw [if_pos h6]

end QString

namespace MultiServerMC

open QString

/-- The fields of a message `launch-with-port <id> <port>`. -/
theorem fields_launch_with_port (id port : String) (hid : ' ' ∉ id.data)
    (hport : ' ' ∉ port.data) :
    fields ' ' ("launch-with-port " ++ id ++ " " ++ port).data =
      ["launch-with-port".data, id.data, port.data] := by
  have hdata : ("launch-with-port " ++ id ++ " " ++ port).data =
      "launch-with-port".data ++ ' ' :: (id.data ++ ' ' :: port.data) := by
    simp [String.data_append]
  rw [hdata, fields_append_sep _ _ _ (by decide), fields_append_sep _ _ _ hid,
    fields_no_sep _ _ hport]

/-- The fields of a message `launch-with-port <id>`. -/
theorem fields_launch_with_port_only (id : String) (hid : ' ' ∉ id.data) :
    fields ' ' ("launch-with-port " ++ id).data = ["launch-with-port".data, id.data] := by
  have hdata : ("launch-with-port " ++ id).data = "launch-with-port".data ++ ' ' :: id.data := by
    simp [String.data_append]
  rw [hdata, fields_append_sep _ _ _ (by decide), fields_no_sep _ _ hid]

end MultiServerMC

/-! ## The claims on censoring and variable substitution -/

/-- C11: with the single filter entry `key -> value`, `key` not empty,
`censorPrivateInfo` returns the line with every non-overlapping occurrence of
`key`, scanned from left to right, replaced by `value` and every other
character unchanged; with the filter `secret -> ***` the line
`token=secret123` becomes `token=***123`. -/
theorem censorPrivateInfo_single_entry (key value line : String) (hkey : key ≠ "") :
    (∀ out : List Char, ReplacedLeftToRight key.data value.data line.data out ↔
      (censorPrivateInfo [(key, value)] line).data = out) ∧
    censorPrivateInfo [("secret", "***")] "token=secret123" = "token=***123" := by
  have hk : key.data ≠ [] := data_ne_nil key hkey
  have hc : (censorPrivateInfo [(key, value)] line).data =
      QString.replaceScan key.data value.data 0 line.data := by
    simp [censorPrivateInfo, QString.replace, hk]
  refine ⟨fun out => ⟨fun h => ?_, fun h => ?_⟩, by decide⟩
  · rw [hc]
    exact replacedLeftToRight_unique _ _ hk _ _ h
  · rw [← h, hc]
    exact replacedLeftToRight_replaceScan _ _ hk _ _ (le_refl _)

/-- Witness of C11: the key `ab` in the line `xababab`. -/
theorem censorPrivateInfo_single_entry_witness :
    ("ab" : String) ≠ "" ∧
    ReplacedLeftToRight "ab".data "#".data "xababab".data "x###".data ∧
    censorPrivateInfo [("ab", "#")] "xababab" = "x###" :=
  ⟨by decide,
    ((censorPrivateInfo_single_entry "ab" "#" "xababab" (by decide)).1 "x###".data).mpr
      (by decide),
    by decide⟩

open MultiServerMC

/-- C12 as stated fails for a line with a level marker when `fromLine` takes
the marker off the line it is handed: the entry stored for the line
`!![INFO]!token=secret123` has the text `token=***123`, which is not the
censored line `!![INFO]!token=***123`. -/
theorem onLogLine_entry_without_marker :
    onLogLine LogIntake.withInfoMarker "!![INFO]!token=secret123" MessageLevel.StdOut none =
      some [(MessageLevel.other 1, "token=***123")] ∧
    censorPrivateInfo LogIntake.withInfoMarker.m_censorFilter "!![INFO]!token=secret123" =
      "!![INFO]!token=***123" := by
  decide

/-- C12 as amended: `onLogLine` hands exactly one entry `(L, censored)` to the
log model of the task (the model it has, or a new one when it has none).
Here `stripped` is the line as `fromLine` leaves it, `censored` is the
censored `stripped`, and the level is computed on the uncensored `stripped`:
`L0` is the level `fromLine` finds, or the passed-in level when it finds none
(`Unknown`); `L` is `guessLevel(stripped, L0)` when `L0` is `StdErr`, `StdOut`
or `Unknown`, and `L0` otherwise, in which case the classifier is not
consulted: the result is the same with any other classifier.  When `fromLine`
leaves the line as it is, the entry is the one for the line passed in. -/
theorem onLogLine_appends_one_entry {LogModel : Type} (io : LogIntake LogModel)
    (line : String) (level : MessageLevel) (m_logModel : Option LogModel)
    (stripped : String) (L0 L : MessageLevel)
    (hstripped : stripped = (io.fromLine line).2)
    (hL0 : L0 = if (io.fromLine line).1 ≠ .Unknown then (io.fromLine line).1 else level)
    (hL : L = if L0 = .StdErr ∨ L0 = .StdOut ∨ L0 = .Unknown then io.guessLevel stripped L0
      else L0) :
    (∀ model, m_logModel = some model →
      onLogLine io line level m_logModel =
        some (io.append L (censorPrivateInfo io.m_censorFilter stripped) model)) ∧
    (m_logModel = none →
      onLogLine io line level m_logModel =
        some (io.append L (censorPrivateInfo io.m_censorFilter stripped) io.newLogModel)) ∧
    ((L0 ≠ .StdErr ∧ L0 ≠ .StdOut ∧ L0 ≠ .Unknown) →
      ∀ guess : String → MessageLevel → MessageLevel,
        onLogLine { io with guessLevel := guess } line level m_logModel =
          onLogLine io line level m_logModel) ∧
    (stripped = line →
      onLogLine io line level m_logModel =
        some (io.append
          (if L0 = .StdErr ∨ L0 = .StdOut ∨ L0 = .Unknown then io.guessLevel line L0 else L0)
          (censorPrivateInfo io.m_censorFilter line)
          (getLogModel io m_logModel))) := by
  subst hstripped
  have hform : ∀ guess : String → MessageLevel → MessageLevel,
      onLogLine { io with guessLevel := guess } line level m_logModel =
        some (io.append
          (if L0 = .StdErr ∨ L0 = .StdOut ∨ L0 = .Unknown then guess (io.fromLine line).2 L0
            else L0)
          (censorPrivateInfo io.m_censorFilter (io.fromLine line).2)
          (getLogModel io m_logModel)) := by
    intro guess
    rw [hL0]
    rfl
  have hio := hform io.guessLevel
  change onLogLine io line level m_logModel = _ at hio
  refine ⟨?_, ?_, ?_, ?_⟩
  · intro model hmodel
    subst hmodel
    rw [hio, hL]
    rfl
  · intro hnone
    subst hnone
    rw [hio, hL]
    rfl
  · intro hother guess
    rw [hform guess, hio, if_neg (by tauto), if_neg (by tauto)]
  · intro hsame
    rw [hio, hsame]

/-- Witness of C12 as amended: a line with a level marker and a secret, for a
task that has a log model with one entry; and a line without marker on
standard output, for a task without log model, where the classifier sees the
secret in the uncensored line. -/
theorem onLogLine_appends_one_entry_witness :
    onLogLine LogIntake.withInfoMarker "!![INFO]!token=secret123" MessageLevel.StdOut
        (some [(MessageLevel.StdOut, "first line")]) =
      some [(MessageLevel.StdOut, "first line"), (MessageLevel.other 1, "token=***123")] ∧
    onLogLine LogIntake.withInfoMarker "token=secret123" MessageLevel.StdOut none =
      some [(MessageLevel.other 2, "token=***123")] :=
  ⟨((onLogLine_appends_one_entry LogIntake.withInfoMarker "!![INFO]!token=secret123"
      MessageLevel.StdOut (some [(MessageLevel.StdOut, "first line")]) "token=secret123"
      (MessageLevel.other 1) (MessageLevel.other 1) (by decide) (by decide) (by decide)).1
      [(MessageLevel.StdOut, "first line")] rfl).trans (by decide),
    ((onLogLine_appends_one_entry LogIntake.withInfoMarker "token=secret123"
      MessageLevel.StdOut none "token=secret123"
      MessageLevel.StdOut (MessageLevel.other 2) (by decide) (by decide) (by decide)).2.1
      rfl).trans (by decide)⟩

/-- C14 (the code of a client process): the test of the port is inverted.
With the launch id `X` and the port 25565 the one message sent is `launch X`,
without the port; with the launch id `X` and no port the one message sent is
`launch-with-port X ` followed by the character with code 0. -/
theorem constructAsClient_port_test_inverted :
    constructAsClient "X" 25565 "" = (.Succeeded, ["launch X"]) ∧
    constructAsClient "X" 0 "" =
      (.Succeeded, [("launch-with-port X " : String).push (Char.ofNat 0)]) := by
  decide

/-- C15 as stated fails: a client process started with an import URL and no
launch id sends two messages, `activate` and then `import` with the URL. -/
theorem constructAsClient_sends_two_messages :
    constructAsClient "" 0 "pack.zip" = (.Succeeded, ["activate", "import pack.zip"]) := by
  decide

/-- C15 as amended: for every command line that passes the check of the port
option, a client process ends with the status `Succeeded` and has sent
exactly one message, except when an import URL is given without a launch id:
then it has sent two, `activate` followed by `import` with the URL. -/
theorem constructAsClient_message_count (m_instanceIdToLaunch : String) (m_serverPort : Int)
    (m_zipToImport : String)
    (husage : ¬ (m_instanceIdToLaunch.data = [] ∧ m_serverPort ≠ 0)) :
    (constructAsClient m_instanceIdToLaunch m_serverPort m_zipToImport).1 = .Succeeded ∧
    (constructAsClient m_instanceIdToLaunch m_serverPort m_zipToImport).2.length =
      (if m_instanceIdToLaunch.data = [] ∧ m_zipToImport.data ≠ [] then 2 else 1) ∧
    (m_instanceIdToLaunch.data = [] → m_zipToImport.data ≠ [] →
      (constructAsClient m_instanceIdToLaunch m_serverPort m_zipToImport).2 =
        ["activate", "import " ++ m_zipToImport]) := by
  simp only [constructAsClient, if_neg husage, sendClientMessages]
  refine ⟨trivial, ?_, ?_⟩
  · by_cases hid : m_instanceIdToLaunch.data = []
    · by_cases hzip : m_zipToImport.data = [] <;> simp [hid, hzip]
    · by_cases hport : m_serverPort = 0 <;> simp [hid, hport]
  · intro hid hzip
    simp [hid, hzip]

/-- Witness of C15 as amended: a launch id and a port. -/
theorem constructAsClient_message_count_witness :
    ¬ (("X" : String).data = [] ∧ (25565 : Int) ≠ 0) ∧
    (constructAsClient "X" 25565 "").2.length = 1 :=
  ⟨by decide, (constructAsClient_message_count "X" 25565 "" (by decide)).2.1⟩

/-- C16: while the status is not `Initialized`, `messageReceived` returns at
once: whatever the message and whatever `launch` would do, the application
is left exactly as it was (no window shown, nothing imported, `launch` not
called, registry and counters unchanged, nothing kept for later). -/
theorem messageReceived_not_initialized (message : String) (app : MultiServerMC)
    (h : app.m_status ≠ .Initialized) :
    messageReceived message app = app ∧
    ∀ launchFn, messageReceivedWith launchFn message app = app := by
  constructor
  · simp [messageReceived, messageReceivedWith, h]
  · intro launchFn
    simp [messageReceivedWith, h]

/-- Witness of C16: a launch message that arrives while the application is
still starting up. -/
theorem messageReceived_not_initialized_witness :
    (blank .StartingUp [⟨"inst", true, false, true⟩]).m_status ≠ .Initialized ∧
    messageReceived "launch inst" (blank .StartingUp [⟨"inst", true, false, true⟩]) =
      blank .StartingUp [⟨"inst", true, false, true⟩] :=
  ⟨by decide,
    (messageReceived_not_initialized "launch inst"
      (blank .StartingUp [⟨"inst", true, false, true⟩]) (by decide)).1⟩

/-- C17: when the status is `Initialized`, for the message
`launch-with-port <id> <port>` with fields free of spaces: if the id is not
empty and names an instance and the port field reads as a number `p` other
than 0, the effect of `messageReceived` is that of one call of `launch` with
that instance, online, no profiler and the port `p`, whatever `launch` does;
if the id is empty, or the port field reads as 0 (as do a text that is not a
number and the empty text), or the port field is missing, the application is
left as it was, whatever `launch` would do. -/
theorem messageReceived_launch_with_port (app : MultiServerMC) (id port : String)
    (hinit : app.m_status = .Initialized) (hid : ' ' ∉ id.data) (hport : ' ' ∉ port.data) :
    (∀ launchFn inst, id ≠ "" → QString.toInt port ≠ 0 → getInstanceById app id = some inst →
      messageReceivedWith launchFn ("launch-with-port " ++ id ++ " " ++ port) app =
        (launchFn inst true none (QString.toInt port) app).2) ∧
    (∀ launchFn, messageReceivedWith launchFn ("launch-with-port " ++ "" ++ " " ++ port) app
      = app) ∧
    (∀ launchFn, QString.toInt port = 0 →
      messageReceivedWith launchFn ("launch-with-port " ++ id ++ " " ++ port) app = app) ∧
    (∀ launchFn, messageReceivedWith launchFn ("launch-with-port " ++ id) app = app) ∧
    QString.toInt "" = 0 ∧ QString.toInt "abc" = 0 ∧ QString.toInt "0" = 0 := by
  have hs : ¬ (app.m_status ≠ .Initialized) := fun h => h hinit
  have hc : ∀ (i p : String), ' ' ∉ i.data → ' ' ∉ p.data →
      QString.section_ ("launch-with-port " ++ i ++ " " ++ p) ' ' 0 0 = "launch-with-port" ∧
      QString.section_ ("launch-with-port " ++ i ++ " " ++ p) ' ' 1 1 = i ∧
      QString.section_ ("launch-with-port " ++ i ++ " " ++ p) ' ' 2 2 = p := by
    intro i p hi hp
    have hf := fields_launch_with_port i p hi hp
    exact ⟨QString.section_field _ ' ' _ 0 _ hf rfl, QString.section_field _ ' ' _ 1 _ hf rfl,
      QString.section_field _ ' ' _ 2 _ hf rfl⟩
  have h1 : ¬ (("launch-with-port" : String) = "activate") := by decide
  have h2 : ¬ (("launch-with-port" : String) = "import") := by decide
  have h3 : ¬ (("launch-with-port" : String) = "launch") := by decide
  refine ⟨?_, ?_, ?_, ?_, by decide, by decide, by decide⟩
  · intro launchFn inst hne hp hinst
    obtain ⟨c0, c1, c2⟩ := hc id port hid hport
    have hd : ¬ (id.data = []) := data_ne_nil id hne
    simp only [messageReceivedWith, if_neg hs, c0, c1, c2, h1, h2, h3, if_false, if_true,
      if_neg hd, if_neg hp, hinst]
  · intro launchFn
    obtain ⟨c0, c1, c2⟩ := hc "" port (by decide) hport
    have hd : ("" : String).data = [] := rfl
    simp only [messageReceivedWith, if_neg hs, c0, c1, c2, h1, h2, h3, if_false, if_true,
      if_pos hd]
  · intro launchFn hp
    obtain ⟨c0, c1, c2⟩ := hc id port hid hport
    by_cases hd : id.data = []
    · simp only [messageReceivedWith, if_neg hs, c0, c1, c2, h1, h2, h3, if_false, if_true,
        if_pos hd]
    · simp only [messageReceivedWith, if_neg hs, c0, c1, c2, h1, h2, h3, if_false, if_true,
        if_neg hd, if_pos hp]
  · intro launchFn
    have hf := fields_launch_with_port_only id hid
    have c0 : QString.section_ ("launch-with-port " ++ id) ' ' 0 0 = "launch-with-port" :=
      QString.section_field _ ' ' _ 0 _ hf rfl
    have c1 : QString.section_ ("launch-with-port " ++ id) ' ' 1 1 = id :=
      QString.section_field _ ' ' _ 1 _ hf rfl
    have c2 : QString.section_ ("launch-with-port " ++ id) ' ' 2 2 = "" :=
      QString.section_field_none _ ' ' _ 2 hf (le_refl _)
    have hp : QString.toInt "" = 0 := by decide
    by_cases hd : id.data = []
    · simp only [messageReceivedWith, if_neg hs, c0, c1, c2, h1, h2, h3, if_false, if_true,
        if_pos hd]
    · simp only [messageReceivedWith, if_neg hs, c0, c1, c2, h1, h2, h3, if_false, if_true,
        if_neg hd, if_pos hp]

/-- Witness of C17: the message `launch-with-port inst 25565`. -/
theorem messageReceived_launch_with_port_witness :
    (blank .Initialized [⟨"inst", true, false, true⟩]).m_status = .Initialized ∧
    QString.toInt "25565" = 25565 ∧
    messageReceived ("launch-with-port " ++ "inst" ++ " " ++ "25565")
        (blank .Initialized [⟨"inst", true, false, true⟩]) =
      (launch ⟨"inst", true, false, true⟩ true none (QString.toInt "25565")
        (blank .Initialized [⟨"inst", true, false, true⟩])).2 :=
  ⟨rfl, by decide,
    (messageReceived_launch_with_port (blank .Initialized [⟨"inst", true, false, true⟩])
      "inst" "25565" rfl (by decide) (by decide)).1 launch ⟨"inst", true, false, true⟩
      (by decide) (by decide) (by decide)⟩

/-- C18: while an update is running, `launch` returns false and leaves the
application exactly as it was: no controller is created or started, the
counter of running instances is unchanged and no window is opened. -/
theorem launch_refused_during_update (inst : Instance) (online : Bool)
    (profiler : Option String) (serverPort : Int) (app : MultiServerMC)
    (h : app.m_updateRunning = true) :
    launch inst online profiler serverPort app = (false, app) := by
  simp [launch, h]

/-- Witness of C18: a launchable instance while an update is running. -/
theorem launch_refused_during_update_witness :
    ({ blank .Initialized [] with m_updateRunning := true } : MultiServerMC).m_updateRunning
      = true ∧
    (launch ⟨"inst", true, false, true⟩ true none 0
      { blank .Initialized [] with m_updateRunning := true }).1 = false :=
  ⟨rfl, congrArg Prod.fst
    (launch_refused_during_update ⟨"inst", true, false, true⟩ true none 0
      { blank .Initialized [] with m_updateRunning := true } rfl)⟩

/-- C19 as stated fails: while an update is running, `launch` for a
launchable instance returns false, installs no controller and leaves the
counter as it was, both when no window of the instance is open and when its
window is open and would answer `saveAll()` with true. -/
theorem launch_launchable_during_update :
    ((launch ⟨"inst", true, false, true⟩ true none 0
        { blank .Initialized [] with m_updateRunning := true }).1 = false ∧
      ((launch ⟨"inst", true, false, true⟩ true none 0
        { blank .Initialized [] with m_updateRunning := true }).2.m_instanceExtras
          "inst").controller = none ∧
      (launch ⟨"inst", true, false, true⟩ true none 0
        { blank .Initialized [] with m_updateRunning := true }).2.m_runningInstances = 0) ∧
    ((launch ⟨"inst", true, false, true⟩ true none 0
        { blank .Initialized [] with
          m_updateRunning := true,
          m_instanceExtras := fun _ => { window := some ⟨"inst"⟩, controller := none } }).1
        = false ∧
      ((launch ⟨"inst", true, false, true⟩ true none 0
        { blank .Initialized [] with
          m_updateRunning := true,
          m_instanceExtras := fun _ => { window := some ⟨"inst"⟩, controller := none }
        }).2.m_instanceExtras "inst").controller = none ∧
      (launch ⟨"inst", true, false, true⟩ true none 0
        { blank .Initialized [] with
          m_updateRunning := true,
          m_instanceExtras := fun _ => { window := some ⟨"inst"⟩, controller := none }
        }).2.m_runningInstances = 0) :=
  ⟨⟨rfl, rfl, rfl⟩, ⟨rfl, rfl, rfl⟩⟩

/-- C19 as amended: while no update is running, for a launchable instance:
if its window is open and answers `saveAll()` with false, `launch` returns
false having done nothing but that call (no controller created, replaced or
started, counter unchanged); if the window answers true, or no window is
open, `launch` returns true, has installed a new controller with the given
settings in the entry of the instance, has raised the counter of running
instances by exactly one and has started the controller last; the window of
the instance, the entries of the other instances and the count of open
windows are as before. -/
theorem launch_launchable (inst : Instance) (online : Bool) (profiler : Option String)
    (serverPort : Int) (app : MultiServerMC)
    (hupdate : app.m_updateRunning = false) (hcan : inst.canLaunch = true) :
    ((app.m_instanceExtras inst.id).window ≠ none → app.windowSaveAll inst.id = false →
      launch inst online profiler serverPort app =
        (false, MultiServerMC.log (.saveAll inst.id) app)) ∧
    ((app.m_instanceExtras inst.id).window = none ∨ app.windowSaveAll inst.id = true →
      ∃ app2 parent, launch inst online profiler serverPort app = (true, app2) ∧
        (app2.m_instanceExtras inst.id).controller =
          some { inst := inst, online := online, profiler := profiler,
                 serverPort := serverPort, parentWidget := parent } ∧
        (app2.m_instanceExtras inst.id).window = (app.m_instanceExtras inst.id).window ∧
        (∀ j, j ≠ inst.id → app2.m_instanceExtras j = app.m_instanceExtras j) ∧
        app2.m_runningInstances = app.m_runningInstances + 1 ∧
        app2.m_openWindows = app.m_openWindows ∧
        app2.trace.getLast? = some (.controllerStart inst.id) ∧
        (app2.trace.filter (fun e => decide (e = .controllerStart inst.id))).length =
          (app.trace.filter (fun e => decide (e = .controllerStart inst.id))).length + 1) := by
  constructor
  · intro hw hsave
    have hsome : (app.m_instanceExtras inst.id).window.isSome = true := by
      cases h : (app.m_instanceExtras inst.id).window
      · exact absurd h hw
      · rfl
    simp [launch, hupdate, hcan, hsome, MultiServerMC.log, hsave]
  · intro h
    cases hwin : (app.m_instanceExtras inst.id).window with
    | none =>
      refine ⟨MultiServerMC.log (.controllerStart inst.id) (addRunningInstance { app with
          m_instanceExtras := Function.update app.m_instanceExtras inst.id
            { window := none,
              controller := some
                { inst := inst, online := online, profiler := profiler,
                  serverPort := serverPort,
                  parentWidget := if app.m_mainWindow then some .mainWindow else none } } }),
        if app.m_mainWindow then some .mainWindow else none, ?_, ?_, ?_, ?_, ?_, ?_, ?_, ?_⟩
      · simp [launch, hupdate, hcan, hwin]
      all_goals
        by_cases h1 : app.m_runningInstances + 1 = 1 <;>
          simp [addRunningInstance, MultiServerMC.log, h1, List.filter_append,
            List.filter_cons]
      all_goals
        intro j hj
        simp [Function.update, hj]
    | some w =>
      have hsave : app.windowSaveAll inst.id = true := by
        rcases h with h | h
        · rw [hwin] at h; cases h
        · exact h
      refine ⟨MultiServerMC.log (.controllerStart inst.id) (addRunningInstance {
          MultiServerMC.log (.saveAll inst.id) app with
          m_instanceExtras := Function.update app.m_instanceExtras inst.id
            { window := some w,
              controller := some
                { inst := inst, online := online, profiler := profiler,
                  serverPort := serverPort,
                  parentWidget := some (.instanceWindow w.instanceId) } } }),
        some (.instanceWindow w.instanceId), ?_, ?_, ?_, ?_, ?_, ?_, ?_, ?_⟩
      · simp [launch, hupdate, hcan, hwin, MultiServerMC.log, hsave]
      all_goals
        by_cases h1 : app.m_runningInstances + 1 = 1 <;>
          simp [addRunningInstance, MultiServerMC.log, h1, List.filter_append,
            List.filter_cons]
      all_goals
        intro j hj
        simp [Function.update, hj]

/-- Witness of C19 as amended: a launchable instance without a window, in an
application with nothing running. -/
theorem launch_launchable_witness :
    (blank .Initialized []).m_updateRunning = false ∧
    (launch ⟨"inst", true, false, true⟩ true none 25565 (blank .Initialized [])).1 = true ∧
    (launch ⟨"inst", true, false, true⟩ true none 25565
      (blank .Initialized [])).2.m_runningInstances = 1 :=
  ⟨rfl,
    by
      obtain ⟨app2, parent, h, -⟩ :=
        (launch_launchable ⟨"inst", true, false, true⟩ true none 25565 (blank .Initialized [])
          rfl rfl).2 (Or.inl rfl)
      rw [h],
    rfl⟩

/-- C20: while no update is running, for an instance that is running and
not launchable, `launch` shows the window of the instance with the page
`console` and returns true; the counter of running instances is unchanged, no
controller is created or started (the entry has a controller afterwards
exactly when it had one before).  A second call right after the first
returns true again, raises the window now open and selects the same page,
and leaves the registry (entries, counters, windows) as the first call left
it. -/
theorem launch_running_shows_console (inst : Instance) (online : Bool)
    (profiler : Option String) (serverPort : Int) (app : MultiServerMC)
    (hupdate : app.m_updateRunning = false) (hcan : inst.canLaunch = false)
    (hrun : inst.isRunning = true) :
    launch inst online profiler serverPort app = (true, showInstanceWindow inst "console" app) ∧
    (launch inst online profiler serverPort app).2.m_runningInstances
      = app.m_runningInstances ∧
    (((launch inst online profiler serverPort app).2.m_instanceExtras inst.id).controller.isSome
      = (app.m_instanceExtras inst.id).controller.isSome) ∧
    (∃ shown, (shown = AppEvent.windowRaised inst.id ∨ shown = AppEvent.windowCreated inst.id) ∧
      (launch inst online profiler serverPort app).2.trace =
        app.trace ++ [shown, .selectPage inst.id "console"]) ∧
    (launch inst online profiler serverPort
      (launch inst online profiler serverPort app).2).1 = true ∧
    (launch inst online profiler serverPort
      (launch inst online profiler serverPort app).2).2 =
      { (launch inst online profiler serverPort app).2 with
        trace := (launch inst online profiler serverPort app).2.trace ++
          [.windowRaised inst.id, .selectPage inst.id "console"] } := by
  have hl : ∀ a : MultiServerMC, a.m_updateRunning = false →
      launch inst online profiler serverPort a = (true, showInstanceWindow inst "console" a) := by
    intro a ha
    simp [launch, ha, hcan, hrun]
  have hpage : ("console" : String).data ≠ [] := by decide
  have hupdate2 : (showInstanceWindow inst "console" app).m_updateRunning = false := by
    cases hwin : (app.m_instanceExtras inst.id).window <;>
      simp [showInstanceWindow, hwin, MultiServerMC.log, hupdate]
  rw [hl app hupdate, hl _ hupdate2]
  refine ⟨rfl, ?_, ?_, ?_, rfl, ?_⟩
  · cases hwin : (app.m_instanceExtras inst.id).window <;>
      simp [showInstanceWindow, hwin, MultiServerMC.log]
  · cases hwin : (app.m_instanceExtras inst.id).window <;>
      simp [showInstanceWindow, hwin, MultiServerMC.log]
  · cases hwin : (app.m_instanceExtras inst.id).window with
    | none =>
      exact ⟨.windowCreated inst.id, Or.inr rfl,
        by simp [showInstanceWindow, hwin, MultiServerMC.log, hpage]⟩
    | some w =>
      exact ⟨.windowRaised inst.id, Or.inl rfl,
        by simp [showInstanceWindow, hwin, MultiServerMC.log, hpage]⟩
  · cases hwin : (app.m_instanceExtras inst.id).window with
    | none =>
      simp [showInstanceWindow, hwin, MultiServerMC.log, hpage, Option.map_map,
        Function.comp_def]
    | some w =>
      simp [showInstanceWindow, hwin, MultiServerMC.log, hpage, Option.map_map,
        Function.comp_def]

/-- Witness of C20: an instance that is running, in an application with
nothing else. -/
theorem launch_running_shows_console_witness :
    (blank .Initialized []).m_updateRunning = false ∧
    launch ⟨"inst", false, true, false⟩ true none 0 (blank .Initialized []) =
      (true, showInstanceWindow ⟨"inst", false, true, false⟩ "console"
        (blank .Initialized [])) :=
  ⟨rfl,
    (launch_running_shows_console ⟨"inst", false, true, false⟩ true none 0
      (blank .Initialized []) rfl rfl rfl).1⟩

/-! ## The claims on killing, the shutdown bookkeeping and the exit code -/

namespace MultiServerMC

theorem lastUpdateAllowed_append_singleton (tr : List AppEvent) (e : AppEvent) :
    lastUpdateAllowed (tr ++ [e]) =
      match e with
      | .updateAllowedChanged allowed => some allowed
      | _ => lastUpdateAllowed tr := by
  simp only [lastUpdateAllowed, List.foldl_append, List.foldl_cons, List.foldl_nil]

theorem counterInv_applyCounterOp (op : CounterOp) (app : MultiServerMC)
    (h : CounterInv app) : CounterInv (applyCounterOp op app) := by
  obtain ⟨h1, h2⟩ := h
  cases op with
  | addRunningInstance =>
    by_cases h0 : app.m_runningInstances = 0
    · simp [applyCounterOp, addRunningInstance, h0, CounterInv, MultiServerMC.log,
        lastUpdateAllowed_append_singleton]
    · have hne : ¬ (app.m_runningInstances + 1 = 1) := by omega
      constructor
      · intro hl
        simp only [applyCounterOp, addRunningInstance, hne, if_false] at hl
        exact absurd (h1 hl) h0
      · intro allowed hl
        simp only [applyCounterOp, addRunningInstance, hne, if_false] at hl ⊢
        have := h2 allowed hl
        simp [h0] at this
        simp [this]
  | subRunningInstance =>
    by_cases h0 : app.m_runningInstances = 0
    · have hsame : applyCounterOp .subRunningInstance app = app := by
        simp [applyCounterOp, subRunningInstance, h0]
      rw [hsame]
      exact ⟨h1, h2⟩
    · by_cases h1' : app.m_runningInstances - 1 = 0
      · simp [applyCounterOp, subRunningInstance, h0, h1', CounterInv, MultiServerMC.log,
          lastUpdateAllowed_append_singleton]
      · constructor
        · intro hl
          simp only [applyCounterOp, subRunningInstance, h0, h1', if_false] at hl
          exact absurd (h1 hl) h0
        · intro allowed hl
          simp only [applyCounterOp, subRunningInstance, h0, h1', if_false] at hl ⊢
          have := h2 allowed hl
          simp [h0] at this
          simp [this, h1']

theorem counterInv_runCounterOps (ops : List CounterOp) (app : MultiServerMC)
    (h : CounterInv app) : CounterInv (runCounterOps ops app) := by
  induction ops generalizing app with
  | nil => exact h
  | cons op ops ih => exact ih _ (counterInv_applyCounterOp op app h)

theorem controllerFailed_eq (controller : LaunchController) (error : String)
    (app : MultiServerMC) :
    controllerFailed (some controller) error app =
      finishController controller.inst.id 1 .Failed app := rfl

theorem controllerSucceeded_eq (controller : LaunchController)
    (autoCloseConsole isClosing : Bool) (app : MultiServerMC) :
    controllerSucceeded (some controller) autoCloseConsole isClosing app =
      finishController controller.inst.id 0 .Succeeded
        (if autoCloseConsole then
          match (app.m_instanceExtras controller.inst.id).window with
          | some window => closeWindow isClosing window app
          | none => app
        else app) := rfl

/-- What `subRunningInstance` does. -/
theorem subRunningInstance_spec (app : MultiServerMC) :
    (subRunningInstance app).m_runningInstances = app.m_runningInstances - 1 ∧
    (subRunningInstance app).m_openWindows = app.m_openWindows ∧
    (subRunningInstance app).m_instanceExtras = app.m_instanceExtras ∧
    ∃ new, (subRunningInstance app).trace = app.trace ++ new ∧
      ∀ code, AppEvent.exit code ∉ new := by
  by_cases h0 : app.m_runningInstances = 0
  · refine ⟨by simp [subRunningInstance, h0], by simp [subRunningInstance, h0],
      by simp [subRunningInstance, h0], [], by simp [subRunningInstance, h0], by simp⟩
  · by_cases h1 : app.m_runningInstances - 1 = 0
    · refine ⟨by simp [subRunningInstance, h0, h1, MultiServerMC.log],
        by simp [subRunningInstance, h0, h1, MultiServerMC.log],
        by simp [subRunningInstance, h0, h1, MultiServerMC.log],
        [.updateAllowedChanged true],
        by simp [subRunningInstance, h0, h1, MultiServerMC.log], by simp⟩
    · refine ⟨by simp [subRunningInstance, h0, h1], by simp [subRunningInstance, h0, h1],
        by simp [subRunningInstance, h0, h1], [], by simp [subRunningInstance, h0, h1],
        by simp⟩

/-- The last step of the shared bookkeeping: `exit` is called exactly when
nothing runs and no window is open. -/
theorem exit_step_spec (returnCode : Int) (status : Status) (app : MultiServerMC)
    (r : MultiServerMC)
    (hr : r = if shouldExitNow app then
      MultiServerMC.log (.exit returnCode) { app with m_status := status } else app) :
    r.m_instanceExtras = app.m_instanceExtras ∧
    r.m_runningInstances = app.m_runningInstances ∧
    r.m_openWindows = app.m_openWindows ∧
    ∃ new, r.trace = app.trace ++ new ∧
      (∀ code, AppEvent.exit code ∈ new → code = returnCode) ∧
      ((∃ code, AppEvent.exit code ∈ new) ↔
        (r.m_runningInstances = 0 ∧ r.m_openWindows = 0)) := by
  subst hr
  by_cases h1 : app.m_runningInstances = 0 <;> by_cases h2 : app.m_openWindows = 0
  · refine ⟨by simp [shouldExitNow, h1, h2, MultiServerMC.log],
      by simp [shouldExitNow, h1, h2, MultiServerMC.log],
      by simp [shouldExitNow, h1, h2, MultiServerMC.log], [.exit returnCode],
      by simp [shouldExitNow, h1, h2, MultiServerMC.log], by simp, ?_⟩
    simp [shouldExitNow, h1, h2, MultiServerMC.log]
  all_goals
    refine ⟨by simp [shouldExitNow, h1, h2], by simp [shouldExitNow, h1, h2],
      by simp [shouldExitNow, h1, h2], [], by simp [shouldExitNow, h1, h2], by simp, ?_⟩
    simp [shouldExitNow, h1, h2]

/-- What the shared bookkeeping of the controller signals does. -/
theorem finishController_spec (id : String) (returnCode : Int) (status : Status)
    (app : MultiServerMC) :
    ((finishController id returnCode status app).m_instanceExtras id).controller = none ∧
    (finishController id returnCode status app).m_runningInstances
      = app.m_runningInstances - 1 ∧
    (finishController id returnCode status app).m_openWindows = app.m_openWindows ∧
    ∃ new, (finishController id returnCode status app).trace = app.trace ++ new ∧
      (∀ code, AppEvent.exit code ∈ new → code = returnCode) ∧
      ((∃ code, AppEvent.exit code ∈ new) ↔
        ((finishController id returnCode status app).m_runningInstances = 0 ∧
          (finishController id returnCode status app).m_openWindows = 0)) := by
  obtain ⟨hr, ho, he, new1, htr, hnew⟩ := subRunningInstance_spec { app with
    m_instanceExtras :=
      Function.update app.m_instanceExtras id
        { window := (app.m_instanceExtras id).window, controller := none } }
  simp only at hr ho he htr
  obtain ⟨ge, gr, go, new2, gtr, gcode, giff⟩ :=
    exit_step_spec returnCode status _ (finishController id returnCode status app) rfl
  refine ⟨by rw [ge, he]; simp, by rw [gr, hr], by rw [go, ho], new1 ++ new2,
    by rw [gtr, htr, List.append_assoc], ?_, ?_⟩
  · intro code hc
    rcases List.mem_append.mp hc with h | h
    · exact absurd h (hnew code)
    · exact gcode code h
  · rw [← giff]
    constructor
    · rintro ⟨code, hc⟩
      rcases List.mem_append.mp hc with h | h
      · exact absurd h (hnew code)
      · exact ⟨code, h⟩
    · rintro ⟨code, hc⟩
      exact ⟨code, List.mem_append.mpr (Or.inr hc)⟩

/-- What `on_windowClose` does to the counter of running instances and to the
trace: any `exit` it calls has the code 0 and comes when nothing runs and no
window is open. -/
theorem on_windowClose_spec (sender : Option Widget) (app : MultiServerMC) :
    (on_windowClose sender app).m_runningInstances = app.m_runningInstances ∧
    ∃ new, (on_windowClose sender app).trace = app.trace ++ new ∧
      (∀ code, AppEvent.exit code ∈ new → code = 0) ∧
      ((∃ code, AppEvent.exit code ∈ new) →
        (on_windowClose sender app).m_runningInstances = 0 ∧
          (on_windowClose sender app).m_openWindows = 0) := by
  rcases sender with _ | (_ | id) <;>
    by_cases hr : app.m_runningInstances = 0 <;>
    by_cases hz : app.m_openWindows = 0 <;>
    by_cases ho : app.m_openWindows - 1 = 0 <;>
    simp [on_windowClose, shouldExitNow, hr, hz, ho, MultiServerMC.log]

/-- What the closing of the console window at the start of
`controllerSucceeded` does to the counter of running instances and to the
trace. -/
theorem autoClose_spec (autoCloseConsole isClosing : Bool) (id : String)
    (app app1 : MultiServerMC)
    (h1 : app1 = if autoCloseConsole then
      match (app.m_instanceExtras id).window with
      | some window => closeWindow isClosing window app
      | none => app
      else app) :
    app1.m_runningInstances = app.m_runningInstances ∧
    ∃ new, app1.trace = app.trace ++ new ∧
      (∀ code, AppEvent.exit code ∈ new → code = 0) ∧
      ((∃ code, AppEvent.exit code ∈ new) →
        app1.m_runningInstances = 0 ∧ app1.m_openWindows = 0) := by
  subst h1
  cases autoCloseConsole with
  | false => simp
  | true =>
    cases hw : (app.m_instanceExtras id).window with
    | none => simp [hw]
    | some window =>
      cases isClosing with
      | false =>
        exact ⟨by simp [closeWindow, MultiServerMC.log], [.windowClose window.instanceId],
          by simp [closeWindow, MultiServerMC.log], by simp, by simp⟩
      | true =>
        obtain ⟨hr, new, htr, hcode, hzero⟩ :=
          on_windowClose_spec (some (.instanceWindow window.instanceId))
            (MultiServerMC.log (.windowClose window.instanceId) app)
        refine ⟨by simpa [closeWindow, MultiServerMC.log] using hr,
          AppEvent.windowClose window.instanceId :: new,
          by simpa [closeWindow, MultiServerMC.log] using htr, ?_, ?_⟩
        · intro code hc
          rcases List.mem_cons.mp hc with h | h
          · cases h
          · exact hcode code h
        · rintro ⟨code, hc⟩
          rcases List.mem_cons.mp hc with h | h
          · cases h
          · simpa [closeWindow] using hzero ⟨code, h⟩

/-- Showing the window of an instance calls no `exit`. -/
theorem showInstanceWindow_no_exit (inst : Instance) (page : String) (app : MultiServerMC) :
    ∃ new, (showInstanceWindow inst page app).trace = app.trace ++ new ∧
      ∀ code, AppEvent.exit code ∉ new := by
  cases hw : (app.m_instanceExtras inst.id).window <;>
    by_cases hp : page.data = [] <;>
    simp [showInstanceWindow, hw, hp, MultiServerMC.log]

/-- Showing the main window calls no `exit`. -/
theorem showMainWindow_no_exit (minimized : Bool) (app : MultiServerMC) :
    ∃ new, (showMainWindow minimized app).trace = app.trace ++ new ∧
      ∀ code, AppEvent.exit code ∉ new := by
  by_cases hm : app.m_mainWindow = true <;> simp [showMainWindow, hm, MultiServerMC.log]

/-- The trace after `launch` is the trace before it and further events, none
of which is a call of `exit`. -/
theorem launch_no_exit (inst : Instance) (online : Bool) (profiler : Option String)
    (serverPort : Int) (app : MultiServerMC) :
    ∃ new, (launch inst online profiler serverPort app).2.trace = app.trace ++ new ∧
      ∀ code, AppEvent.exit code ∉ new := by
  by_cases hu : app.m_updateRunning = true
  · exact ⟨[], by simp [launch, hu], by simp⟩
  · by_cases hc : inst.canLaunch = true
    · cases hw : (app.m_instanceExtras inst.id).window with
      | none =>
        by_cases h1 : app.m_runningInstances + 1 = 1
        · exact ⟨[.updateAllowedChanged false, .controllerStart inst.id],
            by simp [launch, hu, hc, hw, addRunningInstance, MultiServerMC.log, h1], by simp⟩
        · exact ⟨[.controllerStart inst.id],
            by simp [launch, hu, hc, hw, addRunningInstance, MultiServerMC.log, h1], by simp⟩
      | some w =>
        by_cases hs : app.windowSaveAll inst.id = true
        · by_cases h1 : app.m_runningInstances + 1 = 1
          · exact ⟨[.saveAll inst.id, .updateAllowedChanged false, .controllerStart inst.id],
              by simp [launch, hu, hc, hw, hs, addRunningInstance, MultiServerMC.log, h1],
              by simp⟩
          · exact ⟨[.saveAll inst.id, .controllerStart inst.id],
              by simp [launch, hu, hc, hw, hs, addRunningInstance, MultiServerMC.log, h1],
              by simp⟩
        · exact ⟨[.saveAll inst.id],
            by simp [launch, hu, hc, hw, hs, MultiServerMC.log], by simp⟩
    · by_cases hr : inst.isRunning = true
      · simpa [launch, hu, hc, hr] using showInstanceWindow_no_exit inst "console" app
      · by_cases he : inst.canEdit = true
        · simpa [launch, hu, hc, hr, he] using showInstanceWindow_no_exit inst "" app
        · exact ⟨[], by simp [launch, hu, hc, hr, he], by simp⟩

/-- What `controllerSucceeded` does for the controller of an instance. -/
theorem controllerSucceeded_spec (controller : LaunchController)
    (autoCloseConsole isClosing : Bool) (app : MultiServerMC) :
    ((controllerSucceeded (some controller) autoCloseConsole isClosing app).m_instanceExtras
        controller.inst.id).controller = none ∧
      (controllerSucceeded (some controller) autoCloseConsole isClosing app).m_runningInstances
        = app.m_runningInstances - 1 ∧
      ∃ new, (controllerSucceeded (some controller) autoCloseConsole isClosing app).trace
          = app.trace ++ new ∧
        (∀ code, AppEvent.exit code ∈ new → code = 0) ∧
        ((∃ code, AppEvent.exit code ∈ new) ↔
          ((controllerSucceeded (some controller) autoCloseConsole isClosing
              app).m_runningInstances = 0 ∧
            (controllerSucceeded (some controller) autoCloseConsole isClosing
              app).m_openWindows = 0)) := by
  obtain ⟨hr1, new1, htr1, hcode1, hzero1⟩ :=
    autoClose_spec autoCloseConsole isClosing controller.inst.id app _ rfl
  rw [controllerSucceeded_eq]
  obtain ⟨hc, hr, ho, new2, htr, hcode, hiff⟩ :=
    finishController_spec controller.inst.id 0 .Succeeded
      (if autoCloseConsole then
        match (app.m_instanceExtras controller.inst.id).window with
        | some window => closeWindow isClosing window app
        | none => app
      else app)
  refine ⟨hc, by rw [hr, hr1], new1 ++ new2, by rw [htr, htr1, List.append_assoc], ?_, ?_⟩
  · intro code hmem
    rcases List.mem_append.mp hmem with h | h
    · exact hcode1 code h
    · exact hcode code h
  · constructor
    · rintro ⟨code, hmem⟩
      rcases List.mem_append.mp hmem with h | h
      · obtain ⟨z1, z2⟩ := hzero1 ⟨code, h⟩
        rw [hr, ho, z1, z2]
        exact ⟨rfl, rfl⟩
      · exact hiff.mp ⟨code, h⟩
    · intro hz
      obtain ⟨code, h⟩ := hiff.mpr hz
      exact ⟨code, List.mem_append.mpr (Or.inr h)⟩

end MultiServerMC

open MultiServerMC

/-- C21: when the instance does not report running, `kill` returns false and
leaves the application exactly as it was, whatever the `abort()` of a
controller would do (it is not called); when the instance reports running and
its entry has a controller, `kill` is the call of `abort()` on that
controller: it returns what `abort()` returns. -/
theorem kill_delegates_to_abort
    (abort : LaunchController → MultiServerMC → Bool × MultiServerMC) (inst : Instance)
    (app : MultiServerMC) :
    (inst.isRunning = false → kill abort inst app = (false, app)) ∧
    (∀ controller, inst.isRunning = true →
      (app.m_instanceExtras inst.id).controller = some controller →
      kill abort inst app = abort controller app ∧
      (kill abort inst app).1 = (abort controller app).1) := by
  constructor
  · intro h
    simp [kill, h]
  · intro controller h hc
    have : kill abort inst app = abort controller app := by
      simp [kill, h, hc]
    exact ⟨this, by rw [this]⟩

/-- Witness of C21: an instance that is not running, and a running one whose
controller refuses to abort. -/
theorem kill_delegates_to_abort_witness :
    kill (fun _ app => (true, app)) ⟨"inst", true, false, true⟩ (blank .Initialized []) =
      (false, blank .Initialized []) ∧
    (kill (fun _ app => (false, app)) ⟨"inst", false, true, false⟩
      { blank .Initialized [] with
        m_instanceExtras := fun _ =>
          { window := none,
            controller := some ⟨⟨"inst", false, true, false⟩, true, none, 0, none⟩ } }).1
      = false :=
  ⟨(kill_delegates_to_abort (fun _ app => (true, app)) ⟨"inst", true, false, true⟩
      (blank .Initialized [])).1 rfl,
    ((kill_delegates_to_abort (fun _ app => (false, app)) ⟨"inst", false, true, false⟩
      { blank .Initialized [] with
        m_instanceExtras := fun _ =>
          { window := none,
            controller := some ⟨⟨"inst", false, true, false⟩, true, none, 0, none⟩ } }).2
      ⟨⟨"inst", false, true, false⟩, true, none, 0, none⟩ rfl rfl).2⟩

/-- C27: after every sequence of `addRunningInstance` and
`subRunningInstance` calls that starts with the counter at zero and no signal
emitted: a further `subRunningInstance` at zero changes nothing (the counter
stays at zero), `updatesAreAllowed()` is true exactly when the counter is
zero, and the most recent `updateAllowedChanged` signal, if there is one,
carries the value `counter == 0`. -/
theorem counter_and_update_signal (ops : List CounterOp) (app : MultiServerMC)
    (hzero : app.m_runningInstances = 0) (hquiet : lastUpdateAllowed app.trace = none) :
    ((runCounterOps ops app).m_runningInstances = 0 →
      subRunningInstance (runCounterOps ops app) = runCounterOps ops app) ∧
    (updatesAreAllowed (runCounterOps ops app) = true ↔
      (runCounterOps ops app).m_runningInstances = 0) ∧
    (∀ allowed, lastUpdateAllowed (runCounterOps ops app).trace = some allowed →
      allowed = decide ((runCounterOps ops app).m_runningInstances = 0)) := by
  have hinv : CounterInv app := by
    constructor
    · intro _; exact hzero
    · intro allowed h
      rw [hquiet] at h
      cases h
  refine ⟨?_, ?_, (counterInv_runCounterOps ops app hinv).2⟩
  · intro h
    simp [subRunningInstance, h]
  · simp [updatesAreAllowed]

/-- Witness of C27: two instances start, both end, and one more decrement
follows. -/
theorem counter_and_update_signal_witness :
    (blank .Initialized []).m_runningInstances = 0 ∧
    lastUpdateAllowed (blank .Initialized []).trace = none ∧
    (runCounterOps [.addRunningInstance, .addRunningInstance, .subRunningInstance,
        .subRunningInstance, .subRunningInstance] (blank .Initialized [])).m_runningInstances
      = 0 ∧
    lastUpdateAllowed (runCounterOps [.addRunningInstance, .addRunningInstance,
        .subRunningInstance, .subRunningInstance, .subRunningInstance]
        (blank .Initialized [])).trace = some true ∧
    (updatesAreAllowed (runCounterOps [.addRunningInstance, .addRunningInstance,
        .subRunningInstance, .subRunningInstance, .subRunningInstance]
        (blank .Initialized [])) = true ↔
      (runCounterOps [.addRunningInstance, .addRunningInstance, .subRunningInstance,
        .subRunningInstance, .subRunningInstance] (blank .Initialized [])).m_runningInstances
        = 0) :=
  ⟨rfl, rfl, rfl, rfl,
    (counter_and_update_signal [.addRunningInstance, .addRunningInstance, .subRunningInstance,
      .subRunningInstance, .subRunningInstance] (blank .Initialized []) rfl rfl).2.1⟩

/-- C22: on the signal `succeeded` or `failed` of the controller of the
instance `i`: afterwards the entry of `i` has no controller, the counter of
running instances is one less if it was positive (and still zero if it was
zero), `exit` has been called if and only if no instance is running and no
window is open afterwards, and every such call has the code 0 on success and
the code 1 on failure. -/
theorem controller_outcome_bookkeeping (controller : LaunchController)
    (autoCloseConsole isClosing : Bool) (error : String) (app : MultiServerMC) :
    (((controllerSucceeded (some controller) autoCloseConsole isClosing app).m_instanceExtras
        controller.inst.id).controller = none ∧
      (controllerSucceeded (some controller) autoCloseConsole isClosing app).m_runningInstances
        = app.m_runningInstances - 1 ∧
      ∃ new, (controllerSucceeded (some controller) autoCloseConsole isClosing app).trace
          = app.trace ++ new ∧
        (∀ code, AppEvent.exit code ∈ new → code = 0) ∧
        ((∃ code, AppEvent.exit code ∈ new) ↔
          ((controllerSucceeded (some controller) autoCloseConsole isClosing
              app).m_runningInstances = 0 ∧
            (controllerSucceeded (some controller) autoCloseConsole isClosing
              app).m_openWindows = 0))) ∧
    (((controllerFailed (some controller) error app).m_instanceExtras
        controller.inst.id).controller = none ∧
      (controllerFailed (some controller) error app).m_runningInstances
        = app.m_runningInstances - 1 ∧
      (controllerFailed (some controller) error app).m_openWindows = app.m_openWindows ∧
      ∃ new, (controllerFailed (some controller) error app).trace = app.trace ++ new ∧
        (∀ code, AppEvent.exit code ∈ new → code = 1) ∧
        ((∃ code, AppEvent.exit code ∈ new) ↔
          ((controllerFailed (some controller) error app).m_runningInstances = 0 ∧
            (controllerFailed (some controller) error app).m_openWindows = 0))) := by
  constructor
  · exact controllerSucceeded_spec controller autoCloseConsole isClosing app
  · rw [controllerFailed_eq]
    exact finishController_spec controller.inst.id 1 .Failed app

/-- C23 as stated fails: the main window is opened, an instance is launched,
its controller fails while the main window is still open (no `exit`), and
then the main window is closed: `exit` is called once, with the code 0,
although a controller has failed. -/
theorem exit_zero_after_controller_failure :
    exitCodes (runRegistry
      [.mainWindowOpened false,
       .launch ⟨"inst", true, false, true⟩ true none 0,
       .controllerFailed (some ⟨⟨"inst", true, false, true⟩, true, none, 0, none⟩)
         "Game crashed.",
       .windowClosed (some .mainWindow)]
      (blank .Initialized [])).trace = [0] := by
  rfl

/-- C23 as amended: in every sequence of registry events, whatever happened
before, a call of `exit` made while handling an event has the code 1 if the
event is the failure of a controller, and the code 0 otherwise (the success of
a controller or the closing of a window; launching and opening a window never
call `exit`). -/
theorem exit_code_by_event (events : List RegistryEvent) (ev : RegistryEvent)
    (app : MultiServerMC) :
    ∃ new, (runRegistry (events ++ [ev]) app).trace = (runRegistry events app).trace ++ new ∧
      ∀ code, AppEvent.exit code ∈ new →
        code = if ev.isControllerFailed then 1 else 0 := by
  have hrun : runRegistry (events ++ [ev]) app =
      applyRegistryEvent ev (runRegistry events app) := by
    simp [runRegistry, List.foldl_append]
  rw [hrun]
  generalize runRegistry events app = a
  cases ev with
  | launch inst online profiler serverPort =>
    obtain ⟨new, h, hno⟩ := launch_no_exit inst online profiler serverPort a
    exact ⟨new, h, fun code hc => absurd hc (hno code)⟩
  | controllerSucceeded sender autoCloseConsole isClosing =>
    cases sender with
    | none => exact ⟨[], by simp [applyRegistryEvent, controllerSucceeded], by simp⟩
    | some controller =>
      obtain ⟨-, -, new, h, hcode, -⟩ :=
        controllerSucceeded_spec controller autoCloseConsole isClosing a
      exact ⟨new, h, fun code hc => by
        simpa [RegistryEvent.isControllerFailed] using hcode code hc⟩
  | controllerFailed sender error =>
    cases sender with
    | none => exact ⟨[], by simp [applyRegistryEvent, controllerFailed], by simp⟩
    | some controller =>
      obtain ⟨-, -, -, new, h, hcode, -⟩ :=
        finishController_spec controller.inst.id 1 .Failed a
      exact ⟨new, by rw [← h]; rfl, fun code hc => by
        simpa [RegistryEvent.isControllerFailed] using hcode code hc⟩
  | windowOpened inst page =>
    obtain ⟨new, h, hno⟩ := showInstanceWindow_no_exit inst page a
    exact ⟨new, h, fun code hc => absurd hc (hno code)⟩
  | mainWindowOpened minimized =>
    obtain ⟨new, h, hno⟩ := showMainWindow_no_exit minimized a
    exact ⟨new, h, fun code hc => absurd hc (hno code)⟩
  | windowClosed sender =>
    obtain ⟨-, new, h, hcode, -⟩ := on_windowClose_spec sender a
    exact ⟨new, h, fun code hc => by
      simpa [RegistryEvent.isControllerFailed] using hcode code hc⟩

/-! ## The claim on the port option -/

/-- C24 (the code on a port option without an instance id): the port is kept
as the number `args["port"].toInt()` and the check tests that number, so a
port value that reads as 0 is not seen at all.  With the command line
`--port abc`, and likewise with `--port 0`, and no instance id, a client
process is not rejected: it sends `activate` and ends with the status
`Succeeded`.  With `--port 25565` it is rejected. -/
theorem constructAsClientWithArgs_port_reads_as_zero :
    constructAsClientWithArgs none (some "abc") none = (.Succeeded, ["activate"]) ∧
    constructAsClientWithArgs none (some "0") none = (.Succeeded, ["activate"]) ∧
    constructAsClientWithArgs none (some "25565") none = (.Failed, []) := by
  decide

/-! ## The claims on censoring and substitution in all inputs -/

namespace LaunchTask

open QString

/-- A text without characters of `value` that stands at the start of the
replaced line stands at the start of the line itself. -/
theorem replaced_start_reflects (key value : List Char) (hvalue : value ≠ [])
    (l out : List Char) (h : ReplacedLeftToRight key value l out) :
    ∀ p : List Char, (∀ x ∈ p, x ∉ value) → p <+: out → p <+: l := by
  induction h with
  | done => intro p _ hp; exact hp
  | occurrence rest out _ _ =>
    intro p hfree hp
    cases p with
    | nil => exact List.nil_prefix
    | cons x p =>
      cases value with
      | nil => exact absurd rfl hvalue
      | cons y value =>
        rw [List.cons_append, List.cons_prefix_cons] at hp
        exact absurd (by rw [hp.1]; simp) (hfree x (by simp))
  | other c rest out _ _ ih =>
    intro p hfree hp
    cases p with
    | nil => exact List.nil_prefix
    | cons x p =>
      rw [List.cons_prefix_cons] at hp ⊢
      exact ⟨hp.1, ih p (fun y hy => hfree y (by simp [hy])) hp.2⟩

/-- When `value` is not empty and has no character in common with `key`, no
occurrence of `key` starts anywhere in the replaced line. -/
theorem replaced_no_occurrence (key value : List Char) (hkey : key ≠ [])
    (hvalue : value ≠ []) (hdisjoint : ∀ c ∈ value, c ∉ key)
    (l out : List Char) (h : ReplacedLeftToRight key value l out) :
    ∀ t : List Char, t <:+ out → ¬ (key <+: t) := by
  have hfree : ∀ x ∈ key, x ∉ value := fun x hx hv => hdisjoint x hv hx
  induction h with
  | done =>
    intro t ht hk
    have : t = [] := List.suffix_nil.mp ht
    subst this
    exact hkey (List.prefix_nil.mp hk)
  | occurrence rest out _ ih =>
    have haux : ∀ w : List Char, (∀ c ∈ w, c ∈ value) →
        ∀ t : List Char, t <:+ w ++ out → ¬ (key <+: t) := by
      intro w
      induction w with
      | nil => intro _ t ht; exact ih t (by simpa using ht)
      | cons y w ihw =>
        intro hw t ht hk
        rw [List.cons_append, List.suffix_cons_iff] at ht
        rcases ht with ht | ht
        · subst ht
          cases key with
          | nil => exact hkey rfl
          | cons x key =>
            rw [List.cons_prefix_cons] at hk
            exact hdisjoint y (hw y (by simp)) (by rw [← hk.1]; simp)
        · exact ihw (fun c hc => hw c (by simp [hc])) t ht hk
    exact haux value (fun c hc => hc)
  | other c rest out hno hrel ih =>
    intro t ht hk
    rw [List.suffix_cons_iff] at ht
    rcases ht with ht | ht
    · subst ht
      cases key with
      | nil => exact hkey rfl
      | cons x key =>
        rw [List.cons_prefix_cons] at hk
        have hp := replaced_start_reflects (x :: key) value hvalue rest out hrel key
          (fun y hy => hfree y (by simp [hy])) hk.2
        exact hno (by rw [List.cons_prefix_cons]; exact ⟨hk.1, hp⟩)
    · exact ih t ht hk

/-- A replacement by a `value` that is not empty and has no character in
common with the text `k` brings in no occurrence of `k`, whatever the key that
is replaced: if `k` occurs nowhere in the line, it occurs nowhere in the
replaced line. -/
theorem replaced_keeps_absent (k key value : List Char) (hk : k ≠ [])
    (hvalue : value ≠ []) (hdisjoint : ∀ c ∈ value, c ∉ k)
    (l out : List Char) (h : ReplacedLeftToRight key value l out) :
    (∀ t : List Char, t <:+ l → ¬ (k <+: t)) → ∀ t : List Char, t <:+ out → ¬ (k <+: t) := by
  have hfree : ∀ x ∈ k, x ∉ value := fun x hx hv => hdisjoint x hv hx
  induction h with
  | done => intro habs; exact habs
  | occurrence rest out _ ih =>
    intro habs
    have hrest : ∀ t : List Char, t <:+ rest → ¬ (k <+: t) := fun t ht =>
      habs t (ht.trans (List.suffix_append key rest))
    have haux : ∀ w : List Char, (∀ c ∈ w, c ∈ value) →
        ∀ t : List Char, t <:+ w ++ out → ¬ (k <+: t) := by
      intro w
      induction w with
      | nil => intro _ t ht; exact ih hrest t (by simpa using ht)
      | cons y w ihw =>
        intro hw t ht hkt
        rw [List.cons_append, List.suffix_cons_iff] at ht
        rcases ht with ht | ht
        · subst ht
          cases k with
          | nil => exact hk rfl
          | cons x k =>
            rw [List.cons_prefix_cons] at hkt
            exact hdisjoint y (hw y (by simp)) (by rw [← hkt.1]; simp)
        · exact ihw (fun c hc => hw c (by simp [hc])) t ht hkt
    exact haux value (fun c hc => hc)
  | other c rest out hno hrel ih =>
    intro habs t ht hkt
    rw [List.suffix_cons_iff] at ht
    rcases ht with ht | ht
    · subst ht
      exact habs (c :: rest) (List.suffix_refl _)
        (replaced_start_reflects key value hvalue (c :: rest) (c :: out)
          (ReplacedLeftToRight.other c rest out hno hrel) k hfree hkt)
    · exact ih (fun t ht => habs t (ht.trans (List.suffix_cons c rest))) t ht hkt

/-- The same for an empty key, where `value` is put in front of every
character and at the end. -/
theorem insertEverywhere_keeps_absent (k value : List Char) (hk : k ≠ [])
    (hvalue : value ≠ []) (hdisjoint : ∀ c ∈ value, c ∉ k) (l : List Char) :
    (∀ t : List Char, t <:+ l → ¬ (k <+: t)) →
      ∀ t : List Char, t <:+ insertEverywhere value l → ¬ (k <+: t) := by
  have hhead : ∀ (w rest t : List Char), (∀ c ∈ w, c ∈ value) →
      (∀ t : List Char, t <:+ rest → ¬ (k <+: t)) →
      t <:+ w ++ rest → ¬ (k <+: t) := by
    intro w
    induction w with
    | nil => intro rest t _ hrest ht; exact hrest t (by simpa using ht)
    | cons y w ihw =>
      intro rest t hw hrest ht hkt
      rw [List.cons_append, List.suffix_cons_iff] at ht
      rcases ht with ht | ht
      · subst ht
        cases k with
        | nil => exact hk rfl
        | cons x k =>
          rw [List.cons_prefix_cons] at hkt
          exact hdisjoint y (hw y (by simp)) (by rw [← hkt.1]; simp)
      · exact ihw rest t (fun c hc => hw c (by simp [hc])) hrest ht hkt
  have hstart : ∀ l : List Char, ∃ y rest, insertEverywhere value l = y :: rest ∧ y ∈ value := by
    intro l
    cases value with
    | nil => exact absurd rfl hvalue
    | cons y value =>
      cases l with
      | nil => exact ⟨y, value, by simp [insertEverywhere], by simp⟩
      | cons c cs =>
        exact ⟨y, value ++ c :: insertEverywhere (y :: value) cs, by simp [insertEverywhere],
          by simp⟩
  induction l with
  | nil =>
    intro habs t ht
    exact hhead value [] t (fun c hc => hc) habs (by simpa [insertEverywhere] using ht)
  | cons c cs ih =>
    intro habs t ht
    have hcs : ∀ t : List Char, t <:+ cs → ¬ (k <+: t) := fun t ht =>
      habs t (ht.trans (List.suffix_cons c cs))
    refine hhead value (c :: insertEverywhere value cs) t (fun c hc => hc) ?_
      (by simpa [insertEverywhere] using ht)
    intro t ht hkt
    rw [List.suffix_cons_iff] at ht
    rcases ht with ht | ht
    · subst ht
      obtain ⟨y, rest, hrest, hy⟩ := hstart cs
      rw [hrest] at hkt
      cases k with
      | nil => exact hk rfl
      | cons x k =>
        rw [List.cons_prefix_cons] at hkt
        cases k with
        | nil =>
          exact habs (c :: cs) (List.suffix_refl _)
            (by rw [List.cons_prefix_cons]; exact ⟨hkt.1, List.nil_prefix⟩)
        | cons x2 k =>
          rw [List.cons_prefix_cons] at hkt
          exact hdisjoint y hy (by rw [← hkt.2.1]; simp)
    · exact ih hcs t ht hkt

/-- Entries of the censor filter whose values are not empty and have no
character in common with the text `k` bring in no occurrence of `k`. -/
theorem censorPrivateInfo_keeps_absent (k : String) (hk : k ≠ "")
    (filter : List (String × String))
    (hfilter : ∀ kv ∈ filter, kv.2 ≠ "" ∧ ∀ c ∈ kv.2.data, c ∉ k.data) (line : String)
    (habs : ∀ t : List Char, t <:+ line.data → ¬ (k.data <+: t)) :
    ∀ t : List Char, t <:+ (censorPrivateInfo filter line).data → ¬ (k.data <+: t) := by
  have hkd : k.data ≠ [] := data_ne_nil k hk
  induction filter generalizing line with
  | nil => simpa [censorPrivateInfo] using habs
  | cons kv filter ih =>
    have hkv := hfilter kv (by simp)
    have hvd : kv.2.data ≠ [] := data_ne_nil kv.2 hkv.1
    have hstep : ∀ t : List Char, t <:+ (QString.replace kv.1 kv.2 line).data →
        ¬ (k.data <+: t) := by
      by_cases hempty : kv.1.data = []
      · simp only [QString.replace, hempty, if_true]
        exact insertEverywhere_keeps_absent k.data kv.2.data hkd hvd hkv.2 line.data habs
      · simp only [QString.replace, hempty, if_false]
        exact replaced_keeps_absent k.data kv.1.data kv.2.data hkd hvd hkv.2 _ _
          (replacedLeftToRight_replaceScan kv.1.data kv.2.data hempty _ _ (le_refl _)) habs
    have := ih (fun kv2 h2 => hfilter kv2 (by simp [h2])) (QString.replace kv.1 kv.2 line) hstep
    simpa [censorPrivateInfo] using this

/-- The censor filter with one more entry at its end. -/
theorem censorPrivateInfo_append (filter : List (String × String)) (key value line : String) :
    censorPrivateInfo (filter ++ [(key, value)]) line =
      QString.replace key value (censorPrivateInfo filter line) := by
  simp [censorPrivateInfo, List.foldl_append]

end LaunchTask

open LaunchTask

/-- C25 as stated fails.  With the filter `ab -> ` (the empty text) the line
`aabb` becomes `ab`; with the filter `aba -> b` the line `aabaa` becomes
`aba`: what stands around a replaced occurrence closes up to a new one.  With
the filter `secret -> ***`, `x -> secret` the line `x` becomes `secret`: a
later entry brings the key of an earlier one back; and so does a later entry
with an empty value (`ab -> *`, `x -> ` on `axb` gives `ab`) or with a value
that has a character of the key (`ab -> *`, `x -> a` on `xb` gives `ab`).  In
each case the value of the key does not contain the key. -/
theorem censorPrivateInfo_leaves_key :
    censorPrivateInfo [("ab", "")] "aabb" = "ab" ∧
    censorPrivateInfo [("aba", "b")] "aabaa" = "aba" ∧
    censorPrivateInfo [("secret", "***"), ("x", "secret")] "x" = "secret" ∧
    censorPrivateInfo [("ab", "*"), ("x", "")] "axb" = "ab" ∧
    censorPrivateInfo [("ab", "*"), ("x", "a")] "xb" = "ab" := by
  decide

/-- C25 as amended: for every censor filter, every input line and every
entry `k -> v` of the filter: when `k` is not empty, and `v` and the values
of all entries applied after it are not empty and have no character in common
with `k`, the key `k` does not occur in the line returned by
`censorPrivateInfo`. -/
theorem censorPrivateInfo_key_absent (before after : List (String × String))
    (k v line : String) (hk : k ≠ "") (hv : v ≠ "") (hdisjoint : ∀ c ∈ v.data, c ∉ k.data)
    (hafter : ∀ kv ∈ after, kv.2 ≠ "" ∧ ∀ c ∈ kv.2.data, c ∉ k.data) :
    ¬ (k.data <:+: (censorPrivateInfo (before ++ (k, v) :: after) line).data) := by
  have hkd : k.data ≠ [] := data_ne_nil k hk
  have hvd : v.data ≠ [] := data_ne_nil v hv
  have hsplit : censorPrivateInfo (before ++ (k, v) :: after) line =
      censorPrivateInfo after (QString.replace k v (censorPrivateInfo before line)) := by
    simp [censorPrivateInfo, List.foldl_append]
  have hown : ∀ t : List Char,
      t <:+ (QString.replace k v (censorPrivateInfo before line)).data →
        ¬ (k.data <+: t) := by
    simp only [QString.replace, hkd, if_false]
    exact replaced_no_occurrence k.data v.data hkd hvd hdisjoint _ _
      (replacedLeftToRight_replaceScan k.data v.data hkd _ _ (le_refl _))
  rw [hsplit, List.infix_iff_prefix_suffix]
  rintro ⟨t, hpre, hsuf⟩
  exact censorPrivateInfo_keeps_absent k hk after hafter _ hown t hsuf hpre

/-- Witness of C25 as amended: the key `secret` in the filter `id -> #`,
`secret -> ***`, `token -> <>`. -/
theorem censorPrivateInfo_key_absent_witness :
    ¬ ("secret".data <:+: (censorPrivateInfo
      ([("id", "#")] ++ ("secret", "***") :: [("token", "<>")])
      "secsecretret token=secret123").data) :=
  censorPrivateInfo_key_absent [("id", "#")] [("token", "<>")] "secret" "***"
    "secsecretret token=secret123" (by decide) (by decide) (by decide) (by decide)

/-- C28 as stated fails: in each of the states `Finished`, `Failed` and
`Aborted`, `abort()` returns true and `canAbort()` returns false. -/
theorem abort_true_canAbort_false_when_terminal :
    (abort { state := .Finished, currentStep := 0, m_steps := [⟨true, "", true, true⟩],
             trace := [] }
        = .ok (true, { state := .Finished, currentStep := 0,
                       m_steps := [⟨true, "", true, true⟩], trace := [] }) ∧
      canAbort { state := .Finished, currentStep := 0, m_steps := [⟨true, "", true, true⟩],
                 trace := [] } = .ok false) ∧
    (abort { state := .Failed, currentStep := 0, m_steps := [⟨true, "", true, true⟩],
             trace := [] }
        = .ok (true, { state := .Failed, currentStep := 0,
                       m_steps := [⟨true, "", true, true⟩], trace := [] }) ∧
      canAbort { state := .Failed, currentStep := 0, m_steps := [⟨true, "", true, true⟩],
                 trace := [] } = .ok false) ∧
    (abort { state := .Aborted, currentStep := 0, m_steps := [⟨true, "", true, true⟩],
             trace := [] }
        = .ok (true, { state := .Aborted, currentStep := 0,
                       m_steps := [⟨true, "", true, true⟩], trace := [] }) ∧
      canAbort { state := .Aborted, currentStep := 0, m_steps := [⟨true, "", true, true⟩],
                 trace := [] } = .ok false) :=
  ⟨⟨rfl, rfl⟩, ⟨rfl, rfl⟩, ⟨rfl, rfl⟩⟩

/-- C28 as amended: in every state that is not terminal (`NotStarted`,
`Running` or `Waiting`), `abort()` returns true only if `canAbort()`,
evaluated on the same task, returns true; in the terminal states (`Finished`,
`Failed`, `Aborted`) `abort()` returns true while `canAbort()` returns
false. -/
theorem abort_true_only_if_canAbort (t t2 : LaunchTask) :
    (t.state = .NotStarted ∨ t.state = .Running ∨ t.state = .Waiting →
      abort t = .ok (true, t2) → canAbort t = .ok true) ∧
    (t.state = .Finished ∨ t.state = .Failed ∨ t.state = .Aborted →
      abort t = .ok (true, t) ∧ canAbort t = .ok false) := by
  constructor
  · intro hstate h
    rcases hstate with hs | hs | hs
    · simp [canAbort, hs, pure, Except.pure]
    all_goals
      cases hst : stepAt t t.currentStep with
      | error f =>
        simp [abort, hs, hst, bind, Except.bind] at h
      | ok p =>
        obtain ⟨i, step⟩ := p
        cases hcan : step.canAbort with
        | false =>
          simp [abort, hs, hst, hcan, bind, Except.bind, pure, Except.pure] at h
        | true =>
          simp [canAbort, hs, hst, hcan, bind, Except.bind, pure, Except.pure]
  · intro hstate
    rcases hstate with hs | hs | hs <;>
      simp [abort, canAbort, hs, pure, Except.pure]

/-- Witness of C28 as amended: a running task whose step honours the abort. -/
theorem abort_true_only_if_canAbort_witness :
    ((midRun [⟨true, "", true, true⟩] 0).state = .NotStarted ∨
      (midRun [⟨true, "", true, true⟩] 0).state = .Running ∨
      (midRun [⟨true, "", true, true⟩] 0).state = .Waiting) ∧
    canAbort (midRun [⟨true, "", true, true⟩] 0) = .ok true :=
  ⟨Or.inr (Or.inl rfl),
    (abort_true_only_if_canAbort (midRun [⟨true, "", true, true⟩] 0)
      { midRun [⟨true, "", true, true⟩] 0 with
        state := .Aborted,
        trace := [.setRunning true, .setCrashed false, .start 0, .abort 0] }).1
      (Or.inr (Or.inl rfl)) rfl⟩

/-! ## The claim on the images of an icon -/

namespace MSMCIcon

/-- The loop of `remove` ends within four rounds from every slot, so `remove`
returns an icon for each of the three kinds of image. -/
theorem remove_isSome (rm_type : IconType) (icon : MSMCIcon) (h : rm_type.isSlot = true) :
    (remove rm_type icon).isSome = true := by
  cases rm_type <;> simp [IconType.isSlot] at h <;>
    simp only [remove, IconType.isSlot, if_true, removeLoop, IconType.decremented,
      Option.isSome_map'] <;>
    repeat (first | rfl | split)

end MSMCIcon

/-- C29 (the code on three short sequences from a fresh icon):
`remove` does not clear the key of the slot, so after `replace(Builtin, key)`
and `remove(Builtin)` the slot `Builtin` is still present; `remove` looks for
a present slot only from the removed kind downwards, so after
`replace(FileBased, icon)`, `replace(Builtin, icon)` and `remove(Builtin)`
the kind is `ToBeDeleted` although the slot `FileBased` is present; and
`replace` with a null icon and no key makes `Transient` the kind of an icon
whose slot `Transient` is not present. -/
theorem remove_keeps_key_and_skips_higher_slots :
    (((MSMCIcon.replaceKey .Builtin "folder" MSMCIcon.fresh).bind
        (MSMCIcon.remove .Builtin)).map (fun icon => icon.has .Builtin) = some true) ∧
    ((((MSMCIcon.replace .FileBased (some "a") "a.png" MSMCIcon.fresh).bind
        (MSMCIcon.replace .Builtin (some "b") "")).bind
        (MSMCIcon.remove .Builtin)).map
          (fun icon => (icon.m_current_type, icon.has .FileBased, icon.highestPresent))
      = some (.ToBeDeleted, true, .FileBased)) ∧
    ((MSMCIcon.replace .Transient none "" MSMCIcon.fresh).map
          (fun icon => (icon.m_current_type, icon.has .Transient, icon.highestPresent))
      = some (.Transient, false, .ToBeDeleted)) := by
  decide

/-! ## The claim on the search in the log -/

namespace LogFormatProxyModel

theorem forwardLoop_eq (cmp : Int → Option Nat) (k a : Nat) :
    forwardLoop cmp k (a : Int) = (List.range' a k).findSome? (fun r : Nat => cmp (r : Int)) := by
  induction k generalizing a with
  | zero => simp [forwardLoop]
  | succ k ih =>
    have h := ih (a + 1)
    push_cast at h
    rw [forwardLoop, h, List.range'_succ, List.findSome?_cons]
    cases cmp (a : Int) <;> rfl

theorem backwardLoop_eq (cmp : Int → Option Nat) (k a : Nat) (h : k ≤ a + 1) :
    backwardLoop cmp k (a : Int) =
      (List.range' (a + 1 - k) k).reverse.findSome? (fun r : Nat => cmp (r : Int)) := by
  induction k generalizing a with
  | zero => simp [backwardLoop]
  | succ k ih =>
    have hlist : (List.range' (a + 1 - (k + 1)) (k + 1)).reverse =
        a :: (List.range' (a - k) k).reverse := by
      have h1 : a + 1 - (k + 1) = a - k := by omega
      have h2 : a - k + k = a := by omega
      rw [h1, List.range'_concat, List.reverse_append]
      simp [h2]
    rw [backwardLoop, hlist, List.findSome?_cons]
    cases hc : cmp (a : Int) with
    | some idx => rfl
    | none =>
      cases k with
      | zero => simp [backwardLoop]
      | succ k =>
        have ha : 1 ≤ a := by omega
        have h3 := ih (a - 1) (by omega)
        have h4 : ((a - 1 : Nat) : Int) = (a : Int) - 1 := by omega
        have h5 : a - 1 + 1 - (k + 1) = a - (k + 1) := by omega
        rw [h4, h5] at h3
        simpa using h3

theorem compare_start (rows : List String) (contains : String → String → Bool) (s : Nat)
    (value : String) : compare rows contains s value (s : Int) = none := by
  simp [compare]

theorem compare_other (rows : List String) (contains : String → String → Bool) (s : Nat)
    (value : String) (r : Nat) (hr : r < rows.length) (hs : r ≠ s) :
    compare rows contains s value (r : Int) =
      if rowMatches rows contains value r then some r else none := by
  have h1 : ¬ ((r : Int) < 0 ∨ (rows.length : Int) ≤ (r : Int)) := by omega
  have h2 : ¬ ((r : Int) = (s : Int)) := by omega
  simp only [compare, h1, h2, if_false, Int.toNat_ofNat, rowMatches,
    List.getElem?_eq_getElem hr]

theorem findSome_compare (rows : List String) (contains : String → String → Bool) (s : Nat)
    (value : String) (l : List Nat) (h : ∀ r ∈ l, r < rows.length ∧ r ≠ s) :
    l.findSome? (fun r : Nat => compare rows contains s value (r : Int)) =
      l.find? (rowMatches rows contains value) := by
  induction l with
  | nil => rfl
  | cons r l ih =>
    obtain ⟨hr, hs⟩ := h r (by simp)
    rw [List.findSome?_cons, List.find?_cons, compare_other _ _ _ _ _ hr hs,
      ih (fun x hx => h x (by simp [hx]))]
    cases rowMatches rows contains value r <;> rfl

theorem mem_forwardOrder (n s r : Nat) (hs : s < n) :
    r ∈ forwardOrder n s ↔ r < n ∧ r ≠ s := by
  simp only [forwardOrder, List.mem_append, List.mem_range'_1, List.mem_range]
  omega

theorem mem_reverseOrder (n s r : Nat) (hs : s < n) :
    r ∈ reverseOrder n s ↔ r < n ∧ r ≠ s := by
  simp only [reverseOrder, List.mem_append, List.mem_reverse, List.mem_range'_1,
    List.mem_range]
  omega

theorem find_forward (rows : List String) (contains : String → String → Bool) (s : Nat)
    (value : String) (hs : s < rows.length) :
    find rows contains s value false =
      (forwardOrder rows.length s).find? (rowMatches rows contains value) := by
  have h1 : ((rows.length : Int) - (s : Int)).toNat = rows.length - s := by omega
  have h2 : ((s : Int) - 0).toNat = s := by omega
  have h3 : List.range' s (rows.length - s) = s :: List.range' (s + 1) (rows.length - s - 1) := by
    have : rows.length - s = (rows.length - s - 1) + 1 := by omega
    rw [this, List.range'_succ]
    simp
  have hzero := forwardLoop_eq (compare rows contains s value) s 0
  simp only [Nat.cast_zero] at hzero
  simp only [find, h1, h2, Bool.false_eq_true, if_false, forwardLoop_eq, hzero, h3,
    List.findSome?_cons, compare_start]
  rw [findSome_compare rows contains s value (List.range' (s + 1) (rows.length - s - 1))
      (fun r hr => by rw [List.mem_range'_1] at hr; omega),
    ← List.range_eq_range',
    findSome_compare rows contains s value (List.range s)
      (fun r hr => by rw [List.mem_range] at hr; omega),
    forwardOrder, List.find?_append]
  cases List.find? (rowMatches rows contains value)
    (List.range' (s + 1) (rows.length - s - 1)) <;> rfl

theorem find_reverse (rows : List String) (contains : String → String → Bool) (s : Nat)
    (value : String) (hs : s < rows.length) :
    find rows contains s value true =
      (reverseOrder rows.length s).find? (rowMatches rows contains value) := by
  have h1 : ((s : Int) - 0 + 1).toNat = s + 1 := by omega
  have h3 : (rows.length : Int) - 1 = ((rows.length - 1 : Nat) : Int) := by omega
  have h2 : (((rows.length - 1 : Nat) : Int) - (s : Int) + 1).toNat = rows.length - s := by
    omega
  have h4 : (List.range' (s + 1 - (s + 1)) (s + 1)).reverse = s :: (List.range s).reverse := by
    rw [Nat.sub_self, ← List.range_eq_range', List.range_succ, List.reverse_append]
    simp
  have h5 : (List.range' (rows.length - 1 + 1 - (rows.length - s)) (rows.length - s)).reverse =
      (List.range' (s + 1) (rows.length - s - 1)).reverse ++ [s] := by
    have e1 : rows.length - 1 + 1 - (rows.length - s) = s := by omega
    have e2 : rows.length - s = (rows.length - s - 1) + 1 := by omega
    rw [e1, e2, List.range'_succ, List.reverse_cons]
    simp
  simp only [find, h1, h3, h2, if_true,
    backwardLoop_eq (compare rows contains s value) (s + 1) s (le_refl _),
    backwardLoop_eq (compare rows contains s value) (rows.length - s) (rows.length - 1)
      (by omega), h4, h5, List.findSome?_cons, compare_start, List.findSome?_append,
    List.findSome?_nil]
  rw [findSome_compare rows contains s value (List.range s).reverse
      (fun r hr => by rw [List.mem_reverse, List.mem_range] at hr; omega),
    findSome_compare rows contains s value (List.range' (s + 1) (rows.length - s - 1)).reverse
      (fun r hr => by rw [List.mem_reverse, List.mem_range'_1] at hr; omega),
    reverseOrder, List.find?_append]
  cases List.find? (rowMatches rows contains value) (List.range s).reverse <;>
    cases List.find? (rowMatches rows contains value)
      (List.range' (s + 1) (rows.length - s - 1)).reverse <;> rfl


end LogFormatProxyModel

/-- C30: for a log model with the rows `rows` and a valid start row `s`,
`find` with `reverse = false` returns the first row in the order
`s+1, ..., n-1, 0, ..., s-1` whose text contains the search value, and with
`reverse = true` the first in the order `s-1, ..., 0, n-1, ..., s+1`; it never
returns the row `s`, and it returns an invalid index exactly when no row other
than `s` matches. -/
theorem find_cyclic_order (rows : List String) (contains : String → String → Bool) (s : Nat)
    (value : String) (hs : s < rows.length) :
    LogFormatProxyModel.find rows contains s value false =
      (LogFormatProxyModel.forwardOrder rows.length s).find?
        (LogFormatProxyModel.rowMatches rows contains value) ∧
    LogFormatProxyModel.find rows contains s value true =
      (LogFormatProxyModel.reverseOrder rows.length s).find?
        (LogFormatProxyModel.rowMatches rows contains value) ∧
    (∀ reverse, LogFormatProxyModel.find rows contains s value reverse ≠ some s) ∧
    (∀ reverse, LogFormatProxyModel.find rows contains s value reverse = none ↔
      ∀ r, r < rows.length → r ≠ s →
        LogFormatProxyModel.rowMatches rows contains value r = false) := by
  have hf := LogFormatProxyModel.find_forward rows contains s value hs
  have hr := LogFormatProxyModel.find_reverse rows contains s value hs
  refine ⟨hf, hr, ?_, ?_⟩
  · intro reverse h
    cases reverse with
    | false =>
      rw [hf] at h
      have := (LogFormatProxyModel.mem_forwardOrder _ _ _ hs).mp (List.mem_of_find?_eq_some h)
      exact this.2 rfl
    | true =>
      rw [hr] at h
      have := (LogFormatProxyModel.mem_reverseOrder _ _ _ hs).mp (List.mem_of_find?_eq_some h)
      exact this.2 rfl
  · intro reverse
    cases reverse with
    | false =>
      rw [hf, List.find?_eq_none]
      constructor
      · intro h r hr1 hr2
        simpa using h r ((LogFormatProxyModel.mem_forwardOrder _ _ _ hs).mpr ⟨hr1, hr2⟩)
      · intro h r hmem
        obtain ⟨h1, h2⟩ := (LogFormatProxyModel.mem_forwardOrder _ _ _ hs).mp hmem
        simp [h r h1 h2]
    | true =>
      rw [hr, List.find?_eq_none]
      constructor
      · intro h r hr1 hr2
        simpa using h r ((LogFormatProxyModel.mem_reverseOrder _ _ _ hs).mpr ⟨hr1, hr2⟩)
      · intro h r hmem
        obtain ⟨h1, h2⟩ := (LogFormatProxyModel.mem_reverseOrder _ _ _ hs).mp hmem
        simp [h r h1 h2]

/-- Witness of C30: five rows, the search for `b` from row 1. -/
theorem find_cyclic_order_witness :
    1 < ["a", "xb", "c", "XB", "b"].length ∧
    LogFormatProxyModel.forwardOrder 5 1 = [2, 3, 4, 0] ∧
    LogFormatProxyModel.reverseOrder 5 1 = [0, 4, 3, 2] ∧
    LogFormatProxyModel.find ["a", "xb", "c", "XB", "b"] QString.containsCaseInsensitive 1 "b"
      false = some 3 ∧
    LogFormatProxyModel.find ["a", "xb", "c", "XB", "b"] QString.containsCaseInsensitive 1 "b"
      true = some 4 :=
  ⟨by decide, by decide, by decide,
    (find_cyclic_order ["a", "xb", "c", "XB", "b"] QString.containsCaseInsensitive 1 "b"
      (by decide)).1.trans (by decide),
    (find_cyclic_order ["a", "xb", "c", "XB", "b"] QString.containsCaseInsensitive 1 "b"
      (by decide)).2.1.trans (by decide)⟩

end Launch
